import Mathlib

/-!
Verification development for the schema-driven configuration-form engine
(`config-form.shared.ts`, `config-form.node.ts`, and the merged-hints
variant module).

JavaScript values are modelled by `JsValue` (with an explicit `undef`
constructor, since the code distinguishes `undefined` from `null` in a few
places).  JavaScript string primitives (`split`, `includes`, `trim`,
`toLowerCase`, …) are modelled by executable functions over the character
list of a `String`, mirroring the ECMAScript behaviour the code relies on.
`String.prototype.localeCompare` is modelled as code-point lexicographic
comparison.
-/

namespace ConfigForm

/-- Model of `String.prototype.split` with a single-character separator:
splits on every occurrence, yielding `[""]` for the empty string. -/
def splitCharListAux (sep : Char) : List Char → List (List Char)
  | [] => [[]]
  | c :: rest =>
    let r := splitCharListAux sep rest
    if c = sep then [] :: r
    else
      match r with
      | h :: t => (c :: h) :: t
      | [] => [[c]]

/-- `s.split(sep)` for a one-character separator. -/
def jsSplitChar (sep : Char) (s : String) : List String :=
  (splitCharListAux sep s.toList).map List.asString

/-- `s.includes(c)` for a single-character needle. -/
def jsContainsChar (s : String) (c : Char) : Bool :=
  s.toList.contains c

/-- Boolean prefix test on character lists. -/
def isPrefixB : List Char → List Char → Bool
  | [], _ => true
  | _ :: _, [] => false
  | a :: as, b :: bs => a = b && isPrefixB as bs

/-- Boolean substring test on character lists. -/
def isSubstrB (needle : List Char) : List Char → Bool
  | [] => isPrefixB needle []
  | c :: rest => isPrefixB needle (c :: rest) || isSubstrB needle rest

/-- `s.includes(sub)` (substring containment, ECMAScript semantics:
the empty needle is always contained). -/
def jsIncludes (s sub : String) : Bool :=
  isSubstrB sub.toList s.toList

/-- Boolean suffix test on character lists. -/
def isSuffixB (needle hay : List Char) : Bool :=
  isPrefixB needle.reverse hay.reverse

/-- `s.endsWith(sub)`. -/
def jsEndsWith (s sub : String) : Bool :=
  isSuffixB sub.toList s.toList

/-- `s.startsWith(sub)`. -/
def jsStartsWith (s sub : String) : Bool :=
  isPrefixB sub.toList s.toList

/-- `s.trim()`: strip leading and trailing whitespace. -/
def jsTrim (s : String) : String :=
  ((s.toList.dropWhile Char.isWhitespace).reverse.dropWhile Char.isWhitespace).reverse.asString

/-- `s.toLowerCase()` (ASCII model). -/
def jsToLower (s : String) : String :=
  (s.toList.map Char.toLower).asString

/-- `Array.prototype.join(sep)` / template-joining of path segments. -/
def joinWith (sep : String) : List String → String
  | [] => ""
  | [x] => x
  | x :: xs => x ++ sep ++ joinWith sep xs

/-- Code-point lexicographic `≤` on character lists, our model of
`localeCompare(a, b) <= 0`. -/
def lexLeChars : List Char → List Char → Bool
  | [], _ => true
  | _ :: _, [] => false
  | a :: as, b :: bs => if a.toNat = b.toNat then lexLeChars as bs else decide (a.toNat < b.toNat)

/-- Model of `a.localeCompare(b) <= 0` (code-point lexicographic). -/
def jsStrLe (a b : String) : Bool :=
  lexLeChars a.toList b.toList

/-! ## JavaScript values -/

/-- A JavaScript value as the config form sees it: JSON data plus the
distinguished `undefined`. -/
inductive JsValue where
  | undef
  | null
  | bool (b : Bool)
  | num (n : Int)
  | str (s : String)
  | arr (elems : List JsValue)
  | obj (fields : List (String × JsValue))
deriving Repr

mutual

/-- Structural boolean equality on `JsValue`. -/
def JsValue.beq : JsValue → JsValue → Bool
  | .undef, .undef => true
  | .null, .null => true
  | .bool a, .bool b => a = b
  | .num a, .num b => a = b
  | .str a, .str b => a = b
  | .arr xs, .arr ys => JsValue.beqList xs ys
  | .obj fs, .obj gs => JsValue.beqFields fs gs
  | _, _ => false

def JsValue.beqList : List JsValue → List JsValue → Bool
  | [], [] => true
  | x :: xs, y :: ys => JsValue.beq x y && JsValue.beqList xs ys
  | _, _ => false

def JsValue.beqFields : List (String × JsValue) → List (String × JsValue) → Bool
  | [], [] => true
  | (k, v) :: xs, (k', v') :: ys =>
    k = k' && JsValue.beq v v' && JsValue.beqFields xs ys
  | _, _ => false

end

mutual

theorem JsValue.beq_iff_eq : ∀ a b : JsValue, JsValue.beq a b = true ↔ a = b
  | .undef, b => by cases b <;> simp [JsValue.beq]
  | .null, b => by cases b <;> simp [JsValue.beq]
  | .bool a, b => by cases b <;> simp [JsValue.beq]
  | .num a, b => by cases b <;> simp [JsValue.beq]
  | .str a, b => by cases b <;> simp [JsValue.beq]
  | .arr xs, b => by
    cases b <;> simp [JsValue.beq]
    exact JsValue.beqList_iff_eq xs _
  | .obj fs, b => by
    cases b <;> simp [JsValue.beq]
    exact JsValue.beqFields_iff_eq fs _

theorem JsValue.beqList_iff_eq :
    ∀ xs ys : List JsValue, JsValue.beqList xs ys = true ↔ xs = ys
  | [], ys => by cases ys <;> simp [JsValue.beqList]
  | x :: xs, ys => by
    cases ys with
    | nil => simp [JsValue.beqList]
    | cons y ys =>
      simp [JsValue.beqList, JsValue.beq_iff_eq x y, JsValue.beqList_iff_eq xs ys]

theorem JsValue.beqFields_iff_eq :
    ∀ xs ys : List (String × JsValue), JsValue.beqFields xs ys = true ↔ xs = ys
  | [], ys => by cases ys <;> simp [JsValue.beqFields]
  | (k, v) :: xs, ys => by
    cases ys with
    | nil => simp [JsValue.beqFields]
    | cons y ys =>
      obtain ⟨k', v'⟩ := y
      simp [JsValue.beqFields, JsValue.beq_iff_eq v v',
        JsValue.beqFields_iff_eq xs ys, Prod.ext_iff, and_assoc]

end

instance : DecidableEq JsValue :=
  fun a b => decidable_of_iff (JsValue.beq a b = true) (JsValue.beq_iff_eq a b)

/-- JavaScript truthiness (`Boolean(v)`): `undefined`, `null`, `false`,
`0` and `""` are falsy; objects and arrays are always truthy. -/
def truthy : JsValue → Bool
  | .undef => false
  | .null => false
  | .bool b => b
  | .num n => n ≠ 0
  | .str s => s ≠ ""
  | .arr _ => true
  | .obj _ => true

mutual

/-- `String(v)` coercion: primitives to their display strings, arrays via
`join(",")` (with `null`/`undefined` elements becoming empty), plain
objects to `"[object Object]"`. -/
def jsToString : JsValue → String
  | .undef => "undefined"
  | .null => "null"
  | .bool b => if b then "true" else "false"
  | .num n => toString n
  | .str s => s
  | .arr xs => joinWith "," (jsToStringElems xs)
  | .obj _ => "[object Object]"

def jsToStringElems : List JsValue → List String
  | [] => []
  | .undef :: xs => "" :: jsToStringElems xs
  | .null :: xs => "" :: jsToStringElems xs
  | x :: xs => jsToString x :: jsToStringElems xs

end

mutual

/-- The `JSON.stringify`-normal form of a value: `undefined` object fields
are dropped; `undefined` array elements serialize as `null`.  Two non-null
values have equal serializations exactly when their normal forms are
equal. -/
def jnorm : JsValue → JsValue
  | .arr xs => .arr (jnormElems xs)
  | .obj fs => .obj (jnormFields fs)
  | v => v

def jnormElems : List JsValue → List JsValue
  | [] => []
  | .undef :: xs => .null :: jnormElems xs
  | x :: xs => jnorm x :: jnormElems xs

def jnormFields : List (String × JsValue) → List (String × JsValue)
  | [] => []
  | (_, .undef) :: fs => jnormFields fs
  | (k, v) :: fs => (k, jnorm v) :: jnormFields fs

end

/-- `isEqual` from `config-form.shared.ts`: `Object.is` (structural on our
value model) first, `false` when either side is nullish, otherwise
comparison of `JSON.stringify` serializations. -/
def isEqual (lhs rhs : JsValue) : Bool :=
  if lhs = rhs then true
  else
    match lhs, rhs with
    | .undef, _ | _, .undef | .null, _ | _, .null => false
    | l, r => jnorm l = jnorm r

/-! ## Paths -/

/-- A form-tree path segment: a property name (string) or an array index
(number), as in `Array<string | number>`. -/
inductive Seg where
  | s (v : String)
  | n (v : Nat)
deriving DecidableEq, Repr

/-- `typeof segment === "string"`. -/
def Seg.isStringSeg : Seg → Bool
  | .s _ => true
  | .n _ => false

/-- `path.filter((segment) => typeof segment === "string")`, projected to
the underlying strings. -/
def stringSegs (path : List Seg) : List String :=
  path.filterMap fun
    | .s v => some v
    | .n _ => none

/-- `pathKey`: the string segments of the path joined with `"."`. -/
def pathKey (path : List Seg) : String :=
  joinWith "." (stringSegs path)

/-- `isSensitivePath` from `config-form.shared.ts`. -/
def isSensitivePath (path : List Seg) : Bool :=
  let key := jsToLower (pathKey path)
  jsIncludes key "token" || jsIncludes key "password" || jsIncludes key "secret" ||
    jsIncludes key "apikey" || jsEndsWith key "key"

/-- The camel-case splitting pass of `humanize`:
`replace(/([a-z0-9])([A-Z])/g, "$1 $2")`. -/
def camelSplitChars : List Char → List Char
  | a :: b :: rest =>
    if (a.isLower || a.isDigit) && b.isUpper then a :: ' ' :: b :: camelSplitChars rest
    else a :: camelSplitChars (b :: rest)
  | l => l

/-- The whitespace collapsing pass of `humanize`: `replace(/\s+/g, " ")`. -/
def collapseWs : List Char → List Char
  | [] => []
  | c :: rest =>
    if c.isWhitespace then ' ' :: collapseWs (rest.dropWhile Char.isWhitespace)
    else c :: collapseWs rest
termination_by l => l.length
decreasing_by
  · simp only [List.length_cons]
    exact Nat.lt_succ_of_le (List.dropWhile_sublist _).length_le
  · simp

/-- `humanize` from `config-form.shared.ts`: underscores to spaces, split
camel case, collapse whitespace, capitalize the first character (after the
whitespace collapse the first character cannot be a line terminator, so
`/^./` always matches a nonempty string). -/
def humanize (raw : String) : String :=
  let step1 := raw.toList.map fun c => if c = '_' then ' ' else c
  let step3 := collapseWs (camelSplitChars step1)
  (match step3 with
   | [] => []
   | c :: rest => c.toUpper :: rest).asString

/-- `toDocsUrl` from `config-form.shared.ts` (`null` modelled as `none`). -/
def toDocsUrl (path : Option String) : Option String :=
  match path.map jsTrim with
  | none => none
  | some raw =>
    if raw = "" then none
    else if jsStartsWith raw "http://" || jsStartsWith raw "https://" then some raw
    else if !jsStartsWith raw "/" then some ("https://docs.openclaw.ai/" ++ raw)
    else some ("https://docs.openclaw.ai" ++ raw)

/-! ## UI hints -/

/-- One cross-field impact rule (`ConfigUiHintImpact`).  `unknown`-typed
optional fields are `JsValue`s with `.undef` for "absent"; optional string
fields are `Option String` (so that `??` and truthiness tests can be
distinguished). -/
structure ConfigUiHintImpact where
  relation : Option String := none
  targetPath : Option String := none
  when : Option String := none
  whenValue : JsValue := .undef
  targetWhen : Option String := none
  targetValue : JsValue := .undef
  message : String := ""
  fixValue : JsValue := .undef
  fixLabel : Option String := none
  docsPath : Option String := none
deriving DecidableEq, Repr

/-- A UI hint attached to a config path (`ConfigUiHint`). -/
structure ConfigUiHint where
  docsPath : Option String := none
  label : Option String := none
  help : Option String := none
  group : Option String := none
  order : Option Int := none
  advanced : Option Bool := none
  sensitive : Option Bool := none
  placeholder : Option String := none
  itemTemplate : Option JsValue := none
  impacts : Option (List ConfigUiHintImpact) := none
deriving DecidableEq, Repr

/-- A hint table (`Record<string, ConfigUiHint>`), modelled as an
association list in the record's iteration order. -/
abbrev ConfigUiHints := List (String × ConfigUiHint)

/-- JavaScript truthiness of an optional string: present and nonempty. -/
def strTruthy : Option String → Bool
  | some s => s ≠ ""
  | none => false

/-! ## Hint lookup (`hintForPath`, `config-form.shared.ts` lines 59-86) -/

/-- The inner matching loop over positions (lines 74-80): every hint-key
segment is `"*"` or equals the corresponding path segment.  The caller has
already checked that the lengths agree. -/
def wildcardSegsMatch : List String → List String → Bool
  | h :: hs, s :: ss => (h = "*" || h = s) && wildcardSegsMatch hs ss
  | _, _ => true

/-- The `for (const [hintKey, hint] of Object.entries(hints))` loop of
`hintForPath`: skip keys without `"*"`, skip keys with a different number
of dot-segments, return the first structurally matching entry. -/
def hintWildcardLoop (segments : List String) : ConfigUiHints → Option ConfigUiHint
  | [] => none
  | (hintKey, hint) :: rest =>
    if !jsContainsChar hintKey '*' then hintWildcardLoop segments rest
    else
      let hintSegments := jsSplitChar '.' hintKey
      if hintSegments.length ≠ segments.length then hintWildcardLoop segments rest
      else if wildcardSegsMatch hintSegments segments then some hint
      else hintWildcardLoop segments rest

/-- `hints[key]`: record lookup by exact key. -/
def hintDirectLookup (key : String) : ConfigUiHints → Option ConfigUiHint
  | [] => none
  | (k, hint) :: rest => if k = key then some hint else hintDirectLookup key rest

/-- `hintForPath` from `config-form.shared.ts`: exact key first, then the
wildcard scan. -/
def hintForPath (path : List Seg) (hints : ConfigUiHints) : Option ConfigUiHint :=
  let key := pathKey path
  match hintDirectLookup key hints with
  | some direct => some direct
  | none => hintWildcardLoop (jsSplitChar '.' key) hints

/-- C2, claim-side: exact dotted-key lookup first; otherwise the first
table entry (in iteration order) whose key contains `'*'`, splits into the
same number of dot-separated segments as the path's key, and whose every
non-`"*"` segment equals the corresponding path segment. -/
def hintForPathSpec (path : List Seg) (hints : ConfigUiHints) : Option ConfigUiHint :=
  let key := pathKey path
  let segs := jsSplitChar '.' key
  ((hints.find? fun e => e.1 = key).map Prod.snd).or
    ((hints.find? fun e =>
        jsContainsChar e.1 '*' && (jsSplitChar '.' e.1).length = segs.length &&
          ((jsSplitChar '.' e.1).zip segs).all fun p => p.1 = "*" || p.1 = p.2).map
      Prod.snd)

theorem hintDirectLookup_eq_find (key : String) (hints : ConfigUiHints) :
    hintDirectLookup key hints = (hints.find? fun e => e.1 = key).map Prod.snd := by
  induction hints with
  | nil => rfl
  | cons e rest ih =>
    obtain ⟨k, hint⟩ := e
    by_cases h : k = key <;> simp [hintDirectLookup, List.find?_cons, h, ih]

theorem wildcardSegsMatch_eq_zip_all (hs ss : List String) :
    wildcardSegsMatch hs ss = ((hs.zip ss).all fun p => p.1 = "*" || p.1 = p.2) := by
  induction hs generalizing ss with
  | nil => cases ss <;> rfl
  | cons h ht ih =>
    cases ss with
    | nil => rfl
    | cons s st => simp [wildcardSegsMatch, ih]

theorem hintWildcardLoop_eq_find (segs : List String) (hints : ConfigUiHints) :
    hintWildcardLoop segs hints =
      (hints.find? fun e =>
        jsContainsChar e.1 '*' && (jsSplitChar '.' e.1).length = segs.length &&
          ((jsSplitChar '.' e.1).zip segs).all fun p => p.1 = "*" || p.1 = p.2).map
        Prod.snd := by
  induction hints with
  | nil => rfl
  | cons e rest ih =>
    obtain ⟨k, hint⟩ := e
    by_cases hc : jsContainsChar k '*'
    · by_cases hl : (jsSplitChar '.' k).length = segs.length
      · by_cases hm : wildcardSegsMatch (jsSplitChar '.' k) segs = true
        · simp [hintWildcardLoop, List.find?_cons, hc, hl, hm, ← wildcardSegsMatch_eq_zip_all]
        · simp only [Bool.not_eq_true] at hm
          simp [hintWildcardLoop, List.find?_cons, hc, hl, hm, ih,
            ← wildcardSegsMatch_eq_zip_all]
      · simp [hintWildcardLoop, List.find?_cons, hc, hl, ih]
    · simp [hintWildcardLoop, List.find?_cons, hc, ih]

/-- **C2** (confirmed).  For every path and hint table, hint lookup first
returns the table entry whose key equals the path's dotted key when one
exists; otherwise it returns the first entry in table iteration order
whose key contains `'*'`, splits into the same number of dot-separated
segments as the path's key, and whose every non-`"*"` segment equals the
corresponding path segment; and it returns no hint when no such entry
exists. -/
theorem hintForPath_matches_spec (path : List Seg) (hints : ConfigUiHints) :
    hintForPath path hints = hintForPathSpec path hints := by
  simp only [hintForPath, hintForPathSpec]
  rw [hintDirectLookup_eq_find, hintWildcardLoop_eq_find]
  cases (hints.find? fun e => e.1 = pathKey path) <;> simp [Option.or]

/-! ## The impact engine (`config-form.shared.ts` lines 107-282) -/

/-- `splitPath`: split on `'.'`, trim each segment, drop falsy (empty)
segments. -/
def splitPath (path : String) : List String :=
  ((jsSplitChar '.' path).map jsTrim).filter (· ≠ "")

/-- `getValueAtPath`: walk the string path through plain objects; any
non-object (or array) cursor short-circuits to `undefined`. -/
def getValueAtPath : JsValue → List String → JsValue
  | v, [] => v
  | .obj fs, seg :: rest =>
    getValueAtPath (((fs.find? fun f => f.1 = seg).map Prod.snd).getD .undef) rest
  | _, _ :: _ => (.undef)

/-- `resolveWildcardPath`: substitute each `"*"` segment of the declared
path with the source path's string segment at the same index (keeping
`"*"` when the source path is too short). -/
def resolveWildcardPath (path : String) (sourcePath : List Seg) : List String :=
  let sourceSegments := stringSegs sourcePath
  (splitPath path).mapIdx fun index segment =>
    if segment ≠ "*" then segment
    else (sourceSegments[index]?).getD segment

/-- `evaluateCheck`: the seven condition kinds; any other check string
evaluates to `false`. -/
def evaluateCheck (value : JsValue) (check : String) (expected : JsValue) : Bool :=
  if check = "truthy" then truthy value
  else if check = "falsy" then !truthy value
  else if check = "defined" then value ≠ .undef && value ≠ .null && value ≠ .str ""
  else if check = "notDefined" then value = .undef || value = .null || value = .str ""
  else if check = "equals" then isEqual value expected
  else if check = "notEquals" then !isEqual value expected
  else if check = "includes" then
    match value with
    | .str s =>
      match expected with
      | .str e => jsIncludes s e
      | _ => false
    | .arr xs => xs.any fun entry => isEqual entry expected
    | _ => false
  else false

/-- `relationForImpact`: `impact.relation ?? "requires"`. -/
def relationForImpact (impact : ConfigUiHintImpact) : String :=
  impact.relation.getD "requires"

/-- `sourceCheckForImpact`: `impact.when` when truthy, else `"equals"`
when `whenValue` is set, else `"truthy"`. -/
def sourceCheckForImpact (impact : ConfigUiHintImpact) : String :=
  if strTruthy impact.when then impact.when.getD ""
  else if impact.whenValue ≠ .undef then "equals"
  else "truthy"

/-- `targetCheckForImpact`: same defaulting on `targetWhen`/`targetValue`. -/
def targetCheckForImpact (impact : ConfigUiHintImpact) : String :=
  if strTruthy impact.targetWhen then impact.targetWhen.getD ""
  else if impact.targetValue ≠ .undef then "equals"
  else "truthy"

/-- A resolved impact (`ResolvedConfigImpact`).  `fixValue` keeps the
`.undef`-for-absent convention of the `unknown`-typed source field. -/
structure ResolvedConfigImpact where
  relation : String
  message : String
  docsPath : Option String := none
  targetPath : Option String := none
  fixValue : JsValue := .undef
  fixLabel : Option String := none
deriving DecidableEq, Repr

/-- The record pushed for an active impact (lines 271-278): conditional
spreads model the truthiness / `!== undefined` guards of the source. -/
def mkResolvedImpact (impact : ConfigUiHintImpact) (relation : String)
    (targetPathSegments : Option (List String)) : ResolvedConfigImpact :=
  { relation := relation
    message := impact.message
    docsPath := if strTruthy impact.docsPath then impact.docsPath else none
    targetPath := targetPathSegments.map (joinWith ".")
    fixValue := impact.fixValue
    fixLabel := if strTruthy impact.fixLabel then impact.fixLabel else none }

/-- The `for (const impact of impacts)` loop of `resolveConfigImpacts`
(lines 239-279). -/
def resolveImpactsLoop (path : List Seg) (rootValue sourceValue : JsValue) :
    List ConfigUiHintImpact → List ResolvedConfigImpact
  | [] => []
  | impact :: rest =>
    let relation := relationForImpact impact
    let sourceCheck := sourceCheckForImpact impact
    if !evaluateCheck sourceValue sourceCheck impact.whenValue then
      resolveImpactsLoop path rootValue sourceValue rest
    else
      let targetPathSegments : Option (List String) :=
        if strTruthy impact.targetPath then
          some (resolveWildcardPath (impact.targetPath.getD "") path)
        else none
      if targetPathSegments.elim false (fun segs => segs.contains "*") then
        resolveImpactsLoop path rootValue sourceValue rest
      else
        let targetValue := targetPathSegments.elim JsValue.undef (getValueAtPath rootValue)
        let targetCheck := targetCheckForImpact impact
        let targetMatches :=
          targetPathSegments.elim false fun _ =>
            evaluateCheck targetValue targetCheck impact.targetValue
        let active :=
          if relation = "risk" then true
          else if relation = "conflicts" then targetPathSegments.isSome && targetMatches
          else !targetPathSegments.isSome || !targetMatches
        if !active then resolveImpactsLoop path rootValue sourceValue rest
        else
          mkResolvedImpact impact relation targetPathSegments ::
            resolveImpactsLoop path rootValue sourceValue rest

/-- `resolveConfigImpacts` from `config-form.shared.ts`. -/
def resolveConfigImpacts (path : List Seg) (hints : ConfigUiHints) (rootValue : JsValue) :
    List ResolvedConfigImpact :=
  let hint := hintForPath path hints
  let impacts := (hint.bind (·.impacts)).getD []
  if impacts.length = 0 then []
  else
    let sourceValue := getValueAtPath rootValue (stringSegs path)
    resolveImpactsLoop path rootValue sourceValue impacts

/-! ## C1: the claimed characterisation of `resolveConfigImpacts` -/

/-- C1, claim-side, exactly as stated (note: no wildcard-drop rule): an
impact is skipped unless its source check (`impact.when`, defaulting to
`"equals"` when `whenValue` is set and to `"truthy"` otherwise) holds on
the value at the path's string segments; a `"risk"` impact is then always
active; a `"conflicts"` impact is active exactly when it has a target path
and the target check holds on the value at the resolved target path; any
other relation is active exactly when it has no target path or the target
check fails there. -/
def claimImpactKept (path : List Seg) (rootValue sourceValue : JsValue)
    (impact : ConfigUiHintImpact) : Option ResolvedConfigImpact :=
  let relation := relationForImpact impact
  if !evaluateCheck sourceValue (sourceCheckForImpact impact) impact.whenValue then none
  else
    let targetPathSegments : Option (List String) :=
      if strTruthy impact.targetPath then
        some (resolveWildcardPath (impact.targetPath.getD "") path)
      else none
    let targetMatches :=
      targetPathSegments.elim false fun segs =>
        evaluateCheck (getValueAtPath rootValue segs) (targetCheckForImpact impact)
          impact.targetValue
    let active :=
      if relation = "risk" then true
      else if relation = "conflicts" then targetPathSegments.isSome && targetMatches
      else !targetPathSegments.isSome || !targetMatches
    if active then some (mkResolvedImpact impact relation targetPathSegments) else none

/-- C1, claim-side: the active impacts of the hint resolved for the path,
in list order. -/
def resolveConfigImpactsClaimed (path : List Seg) (hints : ConfigUiHints)
    (rootValue : JsValue) : List ResolvedConfigImpact :=
  (((hintForPath path hints).bind (·.impacts)).getD []).filterMap
    (claimImpactKept path rootValue (getValueAtPath rootValue (stringSegs path)))

/-- C1 amended: identical to `claimImpactKept` except that an impact whose
resolved target path still contains a `"*"` segment is skipped. -/
def claimImpactKeptAmended (path : List Seg) (rootValue sourceValue : JsValue)
    (impact : ConfigUiHintImpact) : Option ResolvedConfigImpact :=
  let relation := relationForImpact impact
  if !evaluateCheck sourceValue (sourceCheckForImpact impact) impact.whenValue then none
  else
    let targetPathSegments : Option (List String) :=
      if strTruthy impact.targetPath then
        some (resolveWildcardPath (impact.targetPath.getD "") path)
      else none
    if targetPathSegments.elim false (fun segs => segs.contains "*") then none
    else
      let targetMatches :=
        targetPathSegments.elim false fun segs =>
          evaluateCheck (getValueAtPath rootValue segs) (targetCheckForImpact impact)
            impact.targetValue
      let active :=
        if relation = "risk" then true
        else if relation = "conflicts" then targetPathSegments.isSome && targetMatches
        else !targetPathSegments.isSome || !targetMatches
      if active then some (mkResolvedImpact impact relation targetPathSegments) else none

/-- C1 amended, claim-side resolution. -/
def resolveConfigImpactsAmendedSpec (path : List Seg) (hints : ConfigUiHints)
    (rootValue : JsValue) : List ResolvedConfigImpact :=
  (((hintForPath path hints).bind (·.impacts)).getD []).filterMap
    (claimImpactKeptAmended path rootValue (getValueAtPath rootValue (stringSegs path)))

/-- **C1** counterexample.  A `"risk"` impact whose declared target path
`"x.*"` cannot resolve its `"*"` (the source path is too short) is dropped
by the code, while the claimed characterisation — whose activity rules
make `"risk"` impacts unconditionally active once the source check holds —
keeps it.  The claim as stated is therefore false at this input. -/
theorem resolveConfigImpacts_claim_counterexample :
    resolveConfigImpacts [Seg.s "a"]
        [("a", { impacts := some [{ relation := some "risk", when := some "truthy",
                                    targetPath := some "x.*", message := "m" }] })]
        (.obj [("a", .bool true)]) = [] ∧
      resolveConfigImpactsClaimed [Seg.s "a"]
        [("a", { impacts := some [{ relation := some "risk", when := some "truthy",
                                    targetPath := some "x.*", message := "m" }] })]
        (.obj [("a", .bool true)]) =
        [{ relation := "risk", message := "m", targetPath := some "x.*" }] := by
  constructor <;> rfl

theorem resolveImpactsLoop_eq_filterMap (path : List Seg) (root sv : JsValue)
    (impacts : List ConfigUiHintImpact) :
    resolveImpactsLoop path root sv impacts =
      impacts.filterMap (claimImpactKeptAmended path root sv) := by
  induction impacts with
  | nil => rfl
  | cons impact rest ih =>
    simp only [resolveImpactsLoop, claimImpactKeptAmended, List.filterMap_cons]
    by_cases hsrc : evaluateCheck sv (sourceCheckForImpact impact) impact.whenValue
    · simp only [hsrc, Bool.not_true, Bool.false_eq_true, if_false]
      by_cases htp : strTruthy impact.targetPath
      · by_cases hdrop : "*" ∈ resolveWildcardPath (impact.targetPath.getD "") path
        · simp [htp, hdrop, ih, Option.elim]
        · by_cases hrisk : relationForImpact impact = "risk"
          · simp [htp, hdrop, hrisk, ih, Option.elim]
          · by_cases hconf : relationForImpact impact = "conflicts"
            · by_cases hm :
                  evaluateCheck
                    (getValueAtPath root (resolveWildcardPath (impact.targetPath.getD "") path))
                    (targetCheckForImpact impact) impact.targetValue
              · simp [htp, hdrop, hrisk, hconf, hm, ih, Option.elim]
              · simp [htp, hdrop, hrisk, hconf, hm, ih, Option.elim]
            · by_cases hm :
                  evaluateCheck
                    (getValueAtPath root (resolveWildcardPath (impact.targetPath.getD "") path))
                    (targetCheckForImpact impact) impact.targetValue
              · simp [htp, hdrop, hrisk, hconf, hm, ih, Option.elim]
              · simp [htp, hdrop, hrisk, hconf, hm, ih, Option.elim]
      · by_cases hrisk : relationForImpact impact = "risk"
        · simp [htp, hrisk, ih, Option.elim]
        · by_cases hconf : relationForImpact impact = "conflicts"
          · simp [htp, hrisk, hconf, ih, Option.elim]
          · simp [htp, hrisk, hconf, ih, Option.elim]
    · simp [hsrc, ih]

/-- **C1** (corrected; theorem for the amended claim).  With the single
amendment that an impact whose resolved target path still contains a
`"*"` segment is skipped, `resolveConfigImpacts` returns exactly the
impacts of the hint resolved for the path, in list order, that pass the
source check and are active for their relation. -/
theorem resolveConfigImpacts_amended_spec (path : List Seg) (hints : ConfigUiHints)
    (root : JsValue) :
    resolveConfigImpacts path hints root = resolveConfigImpactsAmendedSpec path hints root := by
  unfold resolveConfigImpacts resolveConfigImpactsAmendedSpec
  by_cases h : (((hintForPath path hints).bind (·.impacts)).getD []).length = 0
  · have hnil : ((hintForPath path hints).bind (·.impacts)).getD [] = [] :=
      List.length_eq_zero.mp h
    simp [h, hnil]
  · simp [h, resolveImpactsLoop_eq_filterMap]

/-! ## C9: resolved target paths and `"*"` segments -/

/-- **C9** counterexample.  When a string segment of the source path
itself contains dots (here the literal property name `"x.*.y"`), the
substituted segment re-splits into several dot-segments of the returned
`targetPath`, one of which is `"*"`.  The returned target path therefore
*can* contain a `"*"` segment, refuting the claim as stated. -/
theorem resolvedTargetPath_star_counterexample :
    ((resolveConfigImpacts [Seg.s "x.*.y"]
          [("x.*.y", { impacts := some [{ relation := some "risk", when := some "truthy",
                                          targetPath := some "*", message := "m" }] })]
          (.obj [("x.*.y", .bool true)])).map (·.targetPath) = [some "x.*.y"]) ∧
      "*" ∈ jsSplitChar '.' "x.*.y" := by
  exact ⟨rfl, by decide⟩

theorem resolveImpactsLoop_targetPath_no_star (path : List Seg) (root sv : JsValue)
    (impacts : List ConfigUiHintImpact) (r : ResolvedConfigImpact)
    (hr : r ∈ resolveImpactsLoop path root sv impacts) (t : String)
    (ht : r.targetPath = some t) :
    ∃ impact ∈ impacts, ∃ segs : List String,
      strTruthy impact.targetPath = true ∧
      segs = resolveWildcardPath (impact.targetPath.getD "") path ∧
      "*" ∉ segs ∧ t = joinWith "." segs := by
  rw [resolveImpactsLoop_eq_filterMap] at hr
  obtain ⟨impact, hmem, hstep⟩ := List.mem_filterMap.mp hr
  refine ⟨impact, hmem, resolveWildcardPath (impact.targetPath.getD "") path, ?_⟩
  simp only [claimImpactKeptAmended] at hstep
  by_cases hsrc : evaluateCheck sv (sourceCheckForImpact impact) impact.whenValue
  · by_cases htp : strTruthy impact.targetPath
    · simp only [hsrc, htp, Bool.not_true, Bool.false_eq_true, if_false, if_true,
        Option.elim_some] at hstep
      by_cases hdrop : (resolveWildcardPath (impact.targetPath.getD "") path).contains "*"
      · rw [if_pos hdrop] at hstep
        exact absurd hstep (by simp)
      · rw [if_neg hdrop] at hstep
        rw [Option.ite_none_right_eq_some] at hstep
        obtain ⟨-, hmk⟩ := hstep
        have hmk' := Option.some_inj.mp hmk
        subst hmk'
        simp only [mkResolvedImpact, Option.map_some] at ht
        exact ⟨htp, rfl, fun hmem' => hdrop (by simpa using hmem'),
          (Option.some_inj.mp ht).symm⟩
    · simp only [hsrc, htp, Bool.not_true, Bool.false_eq_true, if_false, if_true,
        Option.elim_none, Option.elim_some] at hstep
      rw [Option.ite_none_right_eq_some] at hstep
      obtain ⟨-, hmk⟩ := hstep
      have hmk' := Option.some_inj.mp hmk
      subst hmk'
      simp [mkResolvedImpact] at ht
  · simp [hsrc] at hstep

/-- **C9** (corrected; theorem for the amended claim).  Every impact
returned with a `targetPath` obtained it by joining the resolved segment
list of the rule's declared target path — each `"*"` segment replaced by
the source path's string segment at the same index — and that resolved
segment list contains no `"*"` element; an impact whose resolved list
still contains `"*"` is dropped. -/
theorem resolveConfigImpacts_targetPath_resolved (path : List Seg) (hints : ConfigUiHints)
    (root : JsValue) (r : ResolvedConfigImpact)
    (hr : r ∈ resolveConfigImpacts path hints root) (t : String)
    (ht : r.targetPath = some t) :
    ∃ impact ∈ ((hintForPath path hints).bind (·.impacts)).getD [],
      ∃ segs : List String,
        strTruthy impact.targetPath = true ∧
        segs = resolveWildcardPath (impact.targetPath.getD "") path ∧
        "*" ∉ segs ∧ t = joinWith "." segs := by
  unfold resolveConfigImpacts at hr
  by_cases h : (((hintForPath path hints).bind (·.impacts)).getD []).length = 0
  · simp [h] at hr
  · simp only [h, if_false] at hr
    exact resolveImpactsLoop_targetPath_no_star path root _ _ r hr t ht

/-- Witness for C9: a concrete `"requires"` impact whose target path
`"b"` resolves without wildcards. -/
theorem resolveConfigImpacts_targetPath_resolved_witness :
    ∃ impact ∈ (((hintForPath [Seg.s "a"]
          [("a", { impacts := some [{ when := some "truthy", targetPath := some "b",
                                      message := "w" }] })]).bind (·.impacts)).getD []),
      ∃ segs : List String,
        strTruthy impact.targetPath = true ∧
        segs = resolveWildcardPath (impact.targetPath.getD "") [Seg.s "a"] ∧
        "*" ∉ segs ∧ "b" = joinWith "." segs :=
  resolveConfigImpacts_targetPath_resolved [Seg.s "a"]
    [("a", { impacts := some [{ when := some "truthy", targetPath := some "b",
                                message := "w" }] })]
    (.obj [("a", .bool true)])
    { relation := "requires", message := "w", targetPath := some "b" }
    (by decide) "b" rfl

/-! ## C10: only the string segments of a path matter -/

theorem stringSegs_filter (p : List Seg) :
    stringSegs (p.filter Seg.isStringSeg) = stringSegs p := by
  induction p with
  | nil => rfl
  | cons s rest ih =>
    cases s <;> simp [stringSegs, Seg.isStringSeg, List.filter_cons, List.filterMap_cons] at * <;>
      exact ih

theorem stringSegs_append_num (p : List Seg) (i : Nat) :
    stringSegs (p ++ [Seg.n i]) = stringSegs p := by
  simp [stringSegs, List.filterMap_append]

theorem hintForPath_congr {p q : List Seg} (h : stringSegs p = stringSegs q)
    (hints : ConfigUiHints) : hintForPath p hints = hintForPath q hints := by
  unfold hintForPath pathKey
  rw [h]

theorem isSensitivePath_congr {p q : List Seg} (h : stringSegs p = stringSegs q) :
    isSensitivePath p = isSensitivePath q := by
  unfold isSensitivePath pathKey
  rw [h]

theorem resolveWildcardPath_congr (tp : String) {p q : List Seg}
    (h : stringSegs p = stringSegs q) :
    resolveWildcardPath tp p = resolveWildcardPath tp q := by
  unfold resolveWildcardPath
  rw [h]

theorem resolveImpactsLoop_congr {p q : List Seg} (h : stringSegs p = stringSegs q)
    (root sv : JsValue) (impacts : List ConfigUiHintImpact) :
    resolveImpactsLoop p root sv impacts = resolveImpactsLoop q root sv impacts := by
  induction impacts with
  | nil => rfl
  | cons impact rest ih =>
    simp only [resolveImpactsLoop]
    rw [resolveWildcardPath_congr (impact.targetPath.getD "") h, ih]

theorem resolveConfigImpacts_congr {p q : List Seg} (h : stringSegs p = stringSegs q)
    (hints : ConfigUiHints) (root : JsValue) :
    resolveConfigImpacts p hints root = resolveConfigImpacts q hints root := by
  simp only [resolveConfigImpacts]
  rw [hintForPath_congr h, h, resolveImpactsLoop_congr h]

/-- **C10** (confirmed).  Hint lookup, sensitivity detection, and the
impact engine depend only on the string segments of a path: removing all
numeric (array-index) segments changes none of them, because `pathKey`
discards numeric segments; in particular every element of an array shares
the hint and sensitivity of the array's own path. -/
theorem pathKey_discards_numeric_segments (p : List Seg) (hints : ConfigUiHints)
    (root : JsValue) :
    hintForPath (p.filter Seg.isStringSeg) hints = hintForPath p hints ∧
      isSensitivePath (p.filter Seg.isStringSeg) = isSensitivePath p ∧
      resolveConfigImpacts (p.filter Seg.isStringSeg) hints root =
        resolveConfigImpacts p hints root ∧
      (∀ i : Nat,
        hintForPath (p ++ [Seg.n i]) hints = hintForPath p hints ∧
          isSensitivePath (p ++ [Seg.n i]) = isSensitivePath p) := by
  refine ⟨hintForPath_congr (stringSegs_filter p) hints,
    isSensitivePath_congr (stringSegs_filter p),
    resolveConfigImpacts_congr (stringSegs_filter p) hints root, fun i => ?_⟩
  exact ⟨hintForPath_congr (stringSegs_append_num p i) hints,
    isSensitivePath_congr (stringSegs_append_num p i)⟩

/-! ## The merged-hints variant module (`src/unnamed/part_000`)

This module duplicates the shared helpers (`pathKey`, the hint-matching
loops, the impact engine) verbatim and adds a built-in fallback hint table
that is merged with the backend-provided table. -/

namespace Variant

/-- `resolveHint` from the variant module.  Its body is textually
identical to the shared `hintForPath` (exact key, then wildcard scan), so
we reuse that definition. -/
def resolveHint : List Seg → ConfigUiHints → Option ConfigUiHint :=
  ConfigForm.hintForPath

/-- `FALLBACK_UI_HINTS` from the variant module (entries in source
order). -/
def FALLBACK_UI_HINTS : ConfigUiHints :=
  [("channels.*.allowBots",
    { help := some "Allow replies to bot-authored messages (default: off). Keep mention/allowlist guardrails to avoid bot loops.",
      docsPath := some "/gateway/configuration",
      impacts := some
        [{ relation := some "risk", when := some "truthy",
           message := "Allowing bot-authored messages can create bot-to-bot reply loops. Keep mention/allowlist guardrails in place.",
           docsPath := some "/gateway/security" }] }),
   ("channels.*.accounts.*.allowBots",
    { help := some "Allow replies to bot-authored messages for this account (default: off).",
      docsPath := some "/gateway/configuration",
      impacts := some
        [{ relation := some "risk", when := some "truthy",
           message := "Allowing bot-authored messages can create bot-to-bot reply loops. Keep mention/allowlist guardrails in place.",
           docsPath := some "/gateway/security" }] }),
   ("channels.*.blockStreaming",
    { help := some "Emit completed reply chunks while generating, instead of waiting for one final message.",
      docsPath := some "/concepts/streaming" }),
   ("channels.*.accounts.*.blockStreaming",
    { help := some "Emit completed reply chunks while generating for this account.",
      docsPath := some "/concepts/streaming" }),
   ("channels.*.capabilities",
    { help := some "Optional runtime capability tags. Leave empty unless channel docs explicitly require a tag.",
      docsPath := some "/gateway/configuration" }),
   ("channels.*.accounts.*.capabilities",
    { help := some "Optional runtime capability tags for this account. Leave empty unless docs require one.",
      docsPath := some "/gateway/configuration" }),
   ("channels.*.dm.policy",
    { help := some "DM access policy. If set to \"open\", allowFrom should include \"*\".",
      docsPath := some "/gateway/security",
      impacts := some
        [{ relation := some "requires", when := some "equals", whenValue := .str "open",
           targetPath := some "channels.*.dm.allowFrom", targetWhen := some "includes",
           targetValue := .str "*",
           message := "Open DM policy requires allowFrom to include \"*\".",
           fixValue := .arr [.str "*"], fixLabel := some "Allow all (\"*\")" }] }),
   ("channels.*.accounts.*.dm.policy",
    { help := some "DM access policy for this account. If set to \"open\", allowFrom should include \"*\".",
      docsPath := some "/gateway/security",
      impacts := some
        [{ relation := some "requires", when := some "equals", whenValue := .str "open",
           targetPath := some "channels.*.accounts.*.dm.allowFrom",
           targetWhen := some "includes", targetValue := .str "*",
           message := "Open DM policy requires allowFrom to include \"*\".",
           fixValue := .arr [.str "*"], fixLabel := some "Allow all (\"*\")" }] }),
   ("channels.*.dmPolicy",
    { help := some "DM access policy. If set to \"open\", allowFrom should include \"*\".",
      docsPath := some "/gateway/security" }),
   ("channels.*.accounts.*.dmPolicy",
    { help := some "DM access policy for this account. If set to \"open\", allowFrom should include \"*\".",
      docsPath := some "/gateway/security" }),
   ("channels.telegram.streamMode",
    { docsPath := some "/concepts/streaming",
      impacts := some
        [{ relation := some "conflicts", when := some "notEquals", whenValue := .str "off",
           targetPath := some "channels.telegram.blockStreaming",
           targetWhen := some "truthy",
           message := "Telegram draft streaming can suppress block streaming for a reply. Use streamMode=off for block-only behavior." }] }),
   ("channels.telegram.accounts.*.streamMode",
    { docsPath := some "/concepts/streaming",
      impacts := some
        [{ relation := some "conflicts", when := some "notEquals", whenValue := .str "off",
           targetPath := some "channels.telegram.accounts.*.blockStreaming",
           targetWhen := some "truthy",
           message := "Telegram draft streaming can suppress block streaming for a reply. Use streamMode=off for block-only behavior." }] })]

/-- The spread merge `{...fallback, ...resolved, impacts: [...(fallback
.impacts ?? []), ...(resolved.impacts ?? [])]}`: every field present on the
backend hint overrides the fallback's, except `impacts`, which is the
concatenation of fallback impacts then backend impacts. -/
def mergeHint (fallback resolved : ConfigUiHint) : ConfigUiHint :=
  { docsPath := resolved.docsPath.or fallback.docsPath
    label := resolved.label.or fallback.label
    help := resolved.help.or fallback.help
    group := resolved.group.or fallback.group
    order := resolved.order.or fallback.order
    advanced := resolved.advanced.or fallback.advanced
    sensitive := resolved.sensitive.or fallback.sensitive
    placeholder := resolved.placeholder.or fallback.placeholder
    itemTemplate := resolved.itemTemplate.or fallback.itemTemplate
    impacts := some (fallback.impacts.getD [] ++ resolved.impacts.getD []) }

/-- `hintForPath` from the variant module: resolve against the built-in
fallback table and the backend table, and merge when both match. -/
def hintForPath (path : List Seg) (hints : ConfigUiHints) : Option ConfigUiHint :=
  let fallback := resolveHint path FALLBACK_UI_HINTS
  let resolved := resolveHint path hints
  match fallback with
  | none => resolved
  | some f =>
    match resolved with
    | none => some f
    | some r => some (mergeHint f r)

/-- **C5** (confirmed).  The merged hint lookup returns the backend
resolution when no fallback hint matches, the fallback hint when no
backend hint matches, and otherwise a merge in which every backend field
overrides the fallback field of the same name except `impacts`, which is
the fallback hint's impacts followed by the backend hint's impacts. -/
theorem hintForPath_merges_fallback (path : List Seg) (hints : ConfigUiHints) :
    (resolveHint path FALLBACK_UI_HINTS = none →
        hintForPath path hints = resolveHint path hints) ∧
      (∀ f, resolveHint path FALLBACK_UI_HINTS = some f →
        resolveHint path hints = none → hintForPath path hints = some f) ∧
      (∀ f r, resolveHint path FALLBACK_UI_HINTS = some f →
        resolveHint path hints = some r →
        hintForPath path hints = some
          { docsPath := r.docsPath.or f.docsPath
            label := r.label.or f.label
            help := r.help.or f.help
            group := r.group.or f.group
            order := r.order.or f.order
            advanced := r.advanced.or f.advanced
            sensitive := r.sensitive.or f.sensitive
            placeholder := r.placeholder.or f.placeholder
            itemTemplate := r.itemTemplate.or f.itemTemplate
            impacts := some (f.impacts.getD [] ++ r.impacts.getD []) }) := by
  refine ⟨fun hf => ?_, fun f hf hr => ?_, fun f r hf hr => ?_⟩ <;>
    simp [hintForPath, hf, mergeHint] <;> simp [hr]

/-- Witness for C5: the backend hint for `channels.discord.allowBots`
overrides the label of the wildcard fallback hint and appends its impact
after the fallback's risk impact. -/
theorem hintForPath_merges_fallback_witness :
    resolveHint [Seg.s "channels", Seg.s "discord", Seg.s "allowBots"] FALLBACK_UI_HINTS =
        some
          { help := some "Allow replies to bot-authored messages (default: off). Keep mention/allowlist guardrails to avoid bot loops.",
            docsPath := some "/gateway/configuration",
            impacts := some
              [{ relation := some "risk", when := some "truthy",
                 message := "Allowing bot-authored messages can create bot-to-bot reply loops. Keep mention/allowlist guardrails in place.",
                 docsPath := some "/gateway/security" }] } ∧
      hintForPath [Seg.s "channels", Seg.s "discord", Seg.s "allowBots"]
          [("channels.discord.allowBots",
            { label := some "Allow Bots", impacts := some [{ message := "extra" }] })] =
        some
          { docsPath := some "/gateway/configuration"
            label := some "Allow Bots"
            help := some "Allow replies to bot-authored messages (default: off). Keep mention/allowlist guardrails to avoid bot loops."
            impacts := some
              [{ relation := some "risk", when := some "truthy",
                 message := "Allowing bot-authored messages can create bot-to-bot reply loops. Keep mention/allowlist guardrails in place.",
                 docsPath := some "/gateway/security" },
               { message := "extra" }] } :=
  ⟨rfl,
    (hintForPath_merges_fallback [Seg.s "channels", Seg.s "discord", Seg.s "allowBots"]
          [("channels.discord.allowBots",
            { label := some "Allow Bots", impacts := some [{ message := "extra" }] })]).2.2
      _ _ rfl rfl⟩

end Variant

/-! ## JSON Schema (`config-form.shared.ts` lines 3-17)

The recursive `JsonSchema` record.  `unknown`-typed fields (`const`,
`default`) are `JsValue`s with `.undef` for "absent"; `type` is absent, a
string, or a string array; `items` is a schema or an array of schemas;
`additionalProperties` a boolean or a schema. -/

inductive SchemaTypeField where
  | absent
  | single (t : String)
  | many (ts : List String)
deriving DecidableEq, Repr

inductive JsonSchema where
  | mk
    (type : SchemaTypeField)
    (title : Option String)
    (description : Option String)
    (properties : Option (List (String × JsonSchema)))
    (items : Option (Sum JsonSchema (List JsonSchema)))
    (additionalProperties : Option (Sum Bool JsonSchema))
    (enum : Option (List JsValue))
    (const : JsValue)
    (default : JsValue)
    (anyOf : Option (List JsonSchema))
    (oneOf : Option (List JsonSchema))
    (allOf : Option (List JsonSchema))
    (nullable : Option Bool)

def JsonSchema.type : JsonSchema → SchemaTypeField
  | .mk t _ _ _ _ _ _ _ _ _ _ _ _ => t

def JsonSchema.title : JsonSchema → Option String
  | .mk _ t _ _ _ _ _ _ _ _ _ _ _ => t

def JsonSchema.description : JsonSchema → Option String
  | .mk _ _ d _ _ _ _ _ _ _ _ _ _ => d

def JsonSchema.properties : JsonSchema → Option (List (String × JsonSchema))
  | .mk _ _ _ p _ _ _ _ _ _ _ _ _ => p

def JsonSchema.items : JsonSchema → Option (Sum JsonSchema (List JsonSchema))
  | .mk _ _ _ _ i _ _ _ _ _ _ _ _ => i

def JsonSchema.additionalProperties : JsonSchema → Option (Sum Bool JsonSchema)
  | .mk _ _ _ _ _ a _ _ _ _ _ _ _ => a

def JsonSchema.enum : JsonSchema → Option (List JsValue)
  | .mk _ _ _ _ _ _ e _ _ _ _ _ _ => e

def JsonSchema.const : JsonSchema → JsValue
  | .mk _ _ _ _ _ _ _ c _ _ _ _ _ => c

def JsonSchema.default : JsonSchema → JsValue
  | .mk _ _ _ _ _ _ _ _ d _ _ _ _ => d

def JsonSchema.anyOf : JsonSchema → Option (List JsonSchema)
  | .mk _ _ _ _ _ _ _ _ _ a _ _ _ => a

def JsonSchema.oneOf : JsonSchema → Option (List JsonSchema)
  | .mk _ _ _ _ _ _ _ _ _ _ o _ _ => o

def JsonSchema.allOf : JsonSchema → Option (List JsonSchema)
  | .mk _ _ _ _ _ _ _ _ _ _ _ a _ => a

def JsonSchema.nullable : JsonSchema → Option Bool
  | .mk _ _ _ _ _ _ _ _ _ _ _ _ n => n

/-! Structural size used as the termination measure of the renderer. -/

mutual

def schemaSize : JsonSchema → Nat
  | .mk _ _ _ props items ap _ _ _ anyOf oneOf allOf _ =>
    1 + propsSize props + itemsFieldSize items + apFieldSize ap +
      optListSize anyOf + optListSize oneOf + optListSize allOf

def propsSize : Option (List (String × JsonSchema)) → Nat
  | none => 0
  | some l => entriesSize l

def entriesSize : List (String × JsonSchema) → Nat
  | [] => 0
  | (_, s) :: rest => schemaSize s + entriesSize rest

def itemsFieldSize : Option (Sum JsonSchema (List JsonSchema)) → Nat
  | none => 0
  | some (.inl s) => schemaSize s
  | some (.inr l) => schemaListSize l

def apFieldSize : Option (Sum Bool JsonSchema) → Nat
  | none => 0
  | some (.inl _) => 0
  | some (.inr s) => schemaSize s

def optListSize : Option (List JsonSchema) → Nat
  | none => 0
  | some l => schemaListSize l

def schemaListSize : List JsonSchema → Nat
  | [] => 0
  | s :: rest => schemaSize s + schemaListSize rest

end

theorem schemaSize_pos (s : JsonSchema) : 1 ≤ schemaSize s := by
  cases s
  simp only [schemaSize]
  omega

theorem schemaSize_eq (s : JsonSchema) :
    schemaSize s =
      1 + propsSize s.properties + itemsFieldSize s.items +
        apFieldSize s.additionalProperties + optListSize s.anyOf +
        optListSize s.oneOf + optListSize s.allOf := by
  cases s
  simp only [schemaSize, JsonSchema.properties, JsonSchema.items,
    JsonSchema.additionalProperties, JsonSchema.anyOf, JsonSchema.oneOf, JsonSchema.allOf]

theorem schemaListSize_mem {v : JsonSchema} {l : List JsonSchema} (h : v ∈ l) :
    schemaSize v ≤ schemaListSize l := by
  induction l with
  | nil => cases h
  | cons x rest ih =>
    rcases List.mem_cons.mp h with rfl | hm
    · simp only [schemaListSize]
      omega
    · simp only [schemaListSize]
      have := ih hm
      omega

theorem entriesSize_mem {k : String} {v : JsonSchema} {l : List (String × JsonSchema)}
    (h : (k, v) ∈ l) : schemaSize v ≤ entriesSize l := by
  induction l with
  | nil => cases h
  | cons x rest ih =>
    obtain ⟨k', v'⟩ := x
    rcases List.mem_cons.mp h with hx | hm
    · cases hx
      simp only [entriesSize]
      omega
    · simp only [entriesSize]
      have := ih hm
      omega

theorem entriesSize_eq_sum (l : List (String × JsonSchema)) :
    entriesSize l = (l.map fun e => schemaSize e.2).sum := by
  induction l with
  | nil => simp [entriesSize]
  | cons x rest ih =>
    obtain ⟨k, v⟩ := x
    simp [entriesSize, ih]

/-- The `anyOf ?? oneOf ?? []` variant list. -/
def variantsOf (s : JsonSchema) : List JsonSchema :=
  (s.anyOf.or s.oneOf).getD []

theorem optListSize_getD (o : Option (List JsonSchema)) :
    schemaListSize (o.getD []) = optListSize o := by
  cases o <;> simp [optListSize, schemaListSize]

theorem schemaSize_lt_of_mem_variants {v s : JsonSchema} (h : v ∈ variantsOf s) :
    schemaSize v < schemaSize s := by
  have hs := schemaSize_eq s
  unfold variantsOf at h
  cases hA : s.anyOf with
  | some l =>
    rw [hA] at h hs
    simp only [Option.or, Option.getD_some, optListSize] at h hs
    have := schemaListSize_mem h
    omega
  | none =>
    rw [hA] at h hs
    simp only [Option.or, optListSize] at h hs
    cases hO : s.oneOf with
    | some l =>
      rw [hO] at h hs
      simp only [Option.getD_some, optListSize] at h hs
      have := schemaListSize_mem h
      omega
    | none =>
      rw [hO] at h
      simp at h

/-- `Array.isArray(schema.items) ? schema.items[0] : schema.items`. -/
def itemsSchemaOf (s : JsonSchema) : Option JsonSchema :=
  match s.items with
  | some (.inl sch) => some sch
  | some (.inr l) => l.head?
  | none => none

theorem schemaSize_lt_of_itemsSchemaOf {s i : JsonSchema} (h : itemsSchemaOf s = some i) :
    schemaSize i < schemaSize s := by
  have hs := schemaSize_eq s
  unfold itemsSchemaOf at h
  cases hI : s.items with
  | some v =>
    rw [hI] at h hs
    cases v with
    | inl sch =>
      simp only [Option.some_inj] at h
      subst h
      simp only [itemsFieldSize] at hs
      omega
    | inr l =>
      simp only [itemsFieldSize] at hs
      have hm : i ∈ l := by
        cases l with
        | nil => simp at h
        | cons x rest =>
          simp only [List.head?_cons, Option.some_inj] at h
          subst h
          simp
      have := schemaListSize_mem hm
      omega
  | none =>
    rw [hI] at h
    simp at h

theorem schemaSize_lt_of_ap {s ap : JsonSchema}
    (h : s.additionalProperties = some (.inr ap)) : schemaSize ap < schemaSize s := by
  have hs := schemaSize_eq s
  rw [h] at hs
  simp only [apFieldSize] at hs
  omega

theorem entriesSize_properties_lt (s : JsonSchema) :
    entriesSize (s.properties.getD []) < schemaSize s := by
  have hs := schemaSize_eq s
  cases hP : s.properties with
  | some l =>
    rw [hP] at hs
    simp only [propsSize, Option.getD_some] at hs ⊢
    omega
  | none =>
    rw [hP] at hs
    simp only [propsSize, Option.getD_none] at hs ⊢
    simp only [entriesSize]
    omega

/-- The rewritten schema of the boolean-only-union branch:
`{...schema, type: "boolean", anyOf: undefined, oneOf: undefined}`. -/
def stripUnionToBoolean : JsonSchema → JsonSchema
  | .mk _ title desc props items ap enum c d _ _ allOf nullable =>
    .mk (.single "boolean") title desc props items ap enum c d none none allOf nullable

theorem schemaSize_stripUnion_lt {s : JsonSchema} (h : variantsOf s ≠ []) :
    schemaSize (stripUnionToBoolean s) < schemaSize s := by
  obtain ⟨t, title, desc, props, items, ap, enum, c, d, anyOf, oneOf, allOf, nullable⟩ := s
  simp only [stripUnionToBoolean, schemaSize, optListSize]
  simp only [variantsOf, JsonSchema.anyOf, JsonSchema.oneOf] at h
  have hpos : 1 ≤ optListSize anyOf + optListSize oneOf := by
    cases anyOf with
    | some l =>
      simp only [Option.or, Option.getD_some] at h
      cases l with
      | nil => simp at h
      | cons x rest =>
        have := schemaSize_pos x
        simp only [optListSize, schemaListSize]
        omega
    | none =>
      simp only [Option.or] at h
      cases oneOf with
      | some l =>
        simp only [Option.getD_some] at h
        cases l with
        | nil => simp at h
        | cons x rest =>
          have := schemaSize_pos x
          simp only [optListSize, schemaListSize]
          omega
      | none => simp at h
  omega

/-- `schemaType`: a type array is filtered of `"null"` entries, falling
back to the first entry; a plain string is returned as-is. -/
def schemaType (schema : JsonSchema) : Option String :=
  match schema.type with
  | .absent => none
  | .single t => some t
  | .many ts => (ts.filter (· ≠ "null")).head?.or ts.head?

/-- `defaultValue`: the schema's own default when set, otherwise the
type-determined zero value (`""` for a missing schema or unknown type). -/
def defaultValue (schema : Option JsonSchema) : JsValue :=
  match schema with
  | none => .str ""
  | some s =>
    if s.default ≠ .undef then s.default
    else
      match schemaType s with
      | some "object" => .obj []
      | some "array" => .arr []
      | some "boolean" => .bool false
      | some "number" => .num 0
      | some "integer" => .num 0
      | some "string" => .str ""
      | _ => .str ""

/-- `isAnySchema`: no key outside `META_KEYS`
(`title`/`description`/`default`/`nullable`) is present. -/
def isAnySchema (schema : JsonSchema) : Bool :=
  schema.type = .absent && schema.properties.isNone && schema.items.isNone &&
    schema.additionalProperties.isNone && schema.enum.isNone && schema.const = .undef &&
    schema.anyOf.isNone && schema.oneOf.isNone && schema.allOf.isNone

/-- The null-variant filter of the union branch:
`v.type === "null" || (Array.isArray(v.type) && v.type.includes("null"))`. -/
def isNullVariant (v : JsonSchema) : Bool :=
  match v.type with
  | .single t => t = "null"
  | .many ts => ts.contains "null"
  | .absent => false

/-- `extractLiteral`: a `const`, or the sole element of a one-element
`enum`; `undefined` (`.undef`) otherwise. -/
def extractLiteral (v : JsonSchema) : JsValue :=
  if v.const ≠ .undef then v.const
  else
    match v.enum with
    | some l => if l.length = 1 then l.headD .undef else .undef
    | none => (.undef)

/-- JavaScript `a ?? b` on values (`undefined`/`null` fall through). -/
def jsCoalesce (a b : JsValue) : JsValue :=
  match a with
  | .undef => b
  | .null => b
  | v => v

/-- `String(path.at(-1))`. -/
def segToString : Option Seg → String
  | none => "undefined"
  | some (.s v) => v
  | some (.n i) => toString i

/-- `hint?.label ?? schema.title ?? humanize(String(path.at(-1)))`. -/
def nodeLabel (schema : JsonSchema) (hint : Option ConfigUiHint) (path : List Seg) : String :=
  ((hint.bind (·.label)).or schema.title).getD (humanize (segToString path.getLast?))

/-- `hint?.help ?? schema.description`. -/
def nodeHelp (schema : JsonSchema) (hint : Option ConfigUiHint) : Option String :=
  (hint.bind (·.help)).or schema.description

/-- `obj[propKey]` on a plain-object value. -/
def objGet (fields : List (String × JsValue)) (key : String) : JsValue :=
  ((fields.find? fun f => f.1 = key).map Prod.snd).getD (.undef)

/-! ## Property grouping (`renderObjectFields`, lines 722-747) -/

structure EntryGroup where
  label : String
  advanced : Bool
  entries : List (String × JsonSchema)

/-- The per-property group label and advanced flag (lines 727-731). -/
def entryGroupData (path : List Seg) (hints : ConfigUiHints) (propKey : String) :
    String × Bool :=
  let propHint := hintForPath (path ++ [Seg.s propKey]) hints
  let rawGroup := (propHint.bind (·.group)).map jsTrim
  let groupLabel :=
    if strTruthy rawGroup then rawGroup.getD ""
    else if (propHint.bind (·.advanced)) = some true then "Advanced"
    else "General"
  let advanced :=
    (propHint.bind (·.advanced)) = some true || jsToLower groupLabel = "advanced"
  (groupLabel, advanced)

/-- The group key `` `${advanced ? "1" : "0"}:${label.toLowerCase()}` ``. -/
def groupKeyOfData (d : String × Bool) : String :=
  (if d.2 then "1" else "0") ++ ":" ++ jsToLower d.1

def groupKeyOfEntry (path : List Seg) (hints : ConfigUiHints)
    (e : String × JsonSchema) : String :=
  groupKeyOfData (entryGroupData path hints e.1)

def groupKeyOfGroup (g : EntryGroup) : String :=
  groupKeyOfData (g.label, g.advanced)

/-- Insert one entry: append to the first group with the same key
(the `indexByKey` map holds exactly the keys of existing groups), or push
a fresh group at the end. -/
def addToGroups (path : List Seg) (hints : ConfigUiHints) (e : String × JsonSchema) :
    List EntryGroup → List EntryGroup
  | [] =>
    let d := entryGroupData path hints e.1
    [{ label := d.1, advanced := d.2, entries := [e] }]
  | g :: gs =>
    if groupKeyOfGroup g = groupKeyOfEntry path hints e then
      { g with entries := g.entries ++ [e] } :: gs
    else g :: addToGroups path hints e gs

/-- The grouping loop over the (sorted) entry list. -/
def groupEntries (path : List Seg) (hints : ConfigUiHints)
    (entries : List (String × JsonSchema)) : List EntryGroup :=
  entries.foldl (fun groups e => addToGroups path hints e groups) []

/-- Lines 746-747. -/
def useGroupedPresentation (groups : List EntryGroup) : Bool :=
  groups.length > 1 || groups.any fun g => g.advanced || g.label ≠ "General"

/-- `groups[0]?.entries ?? entries`. -/
def fallbackEntriesOf (groups : List EntryGroup)
    (entries : List (String × JsonSchema)) : List (String × JsonSchema) :=
  ((groups.head?).map (·.entries)).getD entries

/-! ## The sort comparator of `renderObject` (lines 828-835) -/

/-- The hint order of a property: `hintForPath(...)?.order ?? 0`. -/
def hintOrderOf (path : List Seg) (hints : ConfigUiHints) (propKey : String) : Int :=
  ((hintForPath (path ++ [Seg.s propKey]) hints).bind (·.order)).getD 0

/-- `comparator(a, b) <= 0` for the `toSorted` comparator
(`orderA - orderB`, ties broken by `localeCompare`); a stable sort with
this `le` is exactly the ECMAScript stable sort with that comparator. -/
def sortLE (path : List Seg) (hints : ConfigUiHints) (a b : String × JsonSchema) : Bool :=
  decide (hintOrderOf path hints a.1 < hintOrderOf path hints b.1) ||
    (decide (hintOrderOf path hints a.1 = hintOrderOf path hints b.1) && jsStrLe a.1 b.1)

theorem lexLeChars_total (a b : List Char) :
    lexLeChars a b = true ∨ lexLeChars b a = true := by
  induction a generalizing b with
  | nil => left; rfl
  | cons x xs ih =>
    cases b with
    | nil => right; rfl
    | cons y ys =>
      by_cases hxy : x.toNat = y.toNat
      · have h1 : lexLeChars (x :: xs) (y :: ys) = lexLeChars xs ys := by
          simp [lexLeChars, hxy]
        have h2 : lexLeChars (y :: ys) (x :: xs) = lexLeChars ys xs := by
          simp [lexLeChars, hxy]
        rw [h1, h2]
        exact ih ys
      · have hyx : ¬y.toNat = x.toNat := fun h => hxy h.symm
        simp only [lexLeChars, if_neg hxy, if_neg hyx, decide_eq_true_eq]
        omega

theorem lexLeChars_trans {a b c : List Char} (hab : lexLeChars a b = true)
    (hbc : lexLeChars b c = true) : lexLeChars a c = true := by
  induction a generalizing b c with
  | nil => rfl
  | cons x xs ih =>
    cases b with
    | nil => simp [lexLeChars] at hab
    | cons y ys =>
      cases c with
      | nil => simp [lexLeChars] at hbc
      | cons z zs =>
        simp only [lexLeChars] at hab hbc ⊢
        by_cases hxy : x.toNat = y.toNat
        · by_cases hyz : y.toNat = z.toNat
          · rw [if_pos hxy] at hab
            rw [if_pos hyz] at hbc
            rw [if_pos (hxy.trans hyz)]
            exact ih hab hbc
          · rw [if_neg hyz] at hbc
            have hxz : ¬x.toNat = z.toNat := by
              simp only [decide_eq_true_eq] at hbc
              omega
            rw [if_neg hxz]
            simp only [decide_eq_true_eq] at hbc ⊢
            omega
        · rw [if_neg hxy] at hab
          simp only [decide_eq_true_eq] at hab
          by_cases hyz : y.toNat = z.toNat
          · have hxz : ¬x.toNat = z.toNat := by omega
            rw [if_neg hxz]
            simp only [decide_eq_true_eq]
            omega
          · rw [if_neg hyz] at hbc
            simp only [decide_eq_true_eq] at hbc
            have hxz : ¬x.toNat = z.toNat := by omega
            rw [if_neg hxz]
            simp only [decide_eq_true_eq]
            omega

theorem jsStrLe_total (a b : String) : jsStrLe a b = true ∨ jsStrLe b a = true :=
  lexLeChars_total a.toList b.toList

theorem jsStrLe_trans {a b c : String} (hab : jsStrLe a b = true)
    (hbc : jsStrLe b c = true) : jsStrLe a c = true :=
  lexLeChars_trans hab hbc

theorem sortLE_total (path : List Seg) (hints : ConfigUiHints)
    (a b : String × JsonSchema) : sortLE path hints a b || sortLE path hints b a := by
  simp only [sortLE, Bool.or_eq_true, Bool.and_eq_true, decide_eq_true_eq]
  rcases lt_trichotomy (hintOrderOf path hints a.1) (hintOrderOf path hints b.1) with h | h | h
  · tauto
  · rcases jsStrLe_total a.1 b.1 with hs | hs <;> tauto
  · tauto

theorem sortLE_trans (path : List Seg) (hints : ConfigUiHints)
    (a b c : String × JsonSchema) (hab : sortLE path hints a b)
    (hbc : sortLE path hints b c) : sortLE path hints a c := by
  simp only [sortLE, Bool.or_eq_true, Bool.and_eq_true, decide_eq_true_eq] at hab hbc ⊢
  rcases hab with hab | ⟨hab, hab'⟩ <;> rcases hbc with hbc | ⟨hbc, hbc'⟩
  · exact Or.inl (hab.trans hbc)
  · exact Or.inl (by omega)
  · exact Or.inl (by omega)
  · exact Or.inr ⟨hab.trans hbc, jsStrLe_trans hab' hbc'⟩

/-! Group entries preserve the (sorted) entry order: every group's entry
list is a sublist of the list that was grouped. -/

theorem addToGroups_sublist {path : List Seg} {hints : ConfigUiHints}
    {e : String × JsonSchema} {acc : List EntryGroup}
    {processed : List (String × JsonSchema)}
    (h : ∀ g ∈ acc, g.entries.Sublist processed) :
    ∀ g ∈ addToGroups path hints e acc, g.entries.Sublist (processed ++ [e]) := by
  induction acc with
  | nil =>
    intro g hg
    simp only [addToGroups, List.mem_singleton] at hg
    subst hg
    exact List.sublist_append_right processed [e]
  | cons g0 gs ih =>
    intro g hg
    simp only [addToGroups] at hg
    split at hg
    · rcases List.mem_cons.mp hg with rfl | hmem
      · exact (h _ (List.mem_cons_self _ _)).append (List.Sublist.refl [e])
      · exact (h g (List.mem_cons_of_mem _ hmem)).trans (List.sublist_append_left _ _)
    · rcases List.mem_cons.mp hg with rfl | hmem
      · exact (h _ (List.mem_cons_self _ _)).trans (List.sublist_append_left _ _)
      · exact ih (fun g' hg' => h g' (List.mem_cons_of_mem _ hg')) g hmem

theorem groupEntries_sublist_aux (path : List Seg) (hints : ConfigUiHints) :
    ∀ (es : List (String × JsonSchema)) (acc : List EntryGroup)
      (processed : List (String × JsonSchema)),
      (∀ g ∈ acc, g.entries.Sublist processed) →
      ∀ g ∈ es.foldl (fun groups e => addToGroups path hints e groups) acc,
        g.entries.Sublist (processed ++ es) := by
  intro es
  induction es with
  | nil =>
    intro acc processed h g hg
    simpa using h g hg
  | cons e rest ih =>
    intro acc processed h g hg
    simp only [List.foldl_cons] at hg
    have h' := @addToGroups_sublist path hints e acc processed h
    have := ih (addToGroups path hints e acc) (processed ++ [e]) h' g hg
    simpa [List.append_assoc] using this

/-- Every group produced by the grouping loop lists its entries as a
sublist of (hence in the same relative order as) the grouped list. -/
theorem groupEntries_sublist (path : List Seg) (hints : ConfigUiHints)
    (entries : List (String × JsonSchema)) :
    ∀ g ∈ groupEntries path hints entries, g.entries.Sublist entries := by
  intro g hg
  have := groupEntries_sublist_aux path hints entries [] [] (by simp) g hg
  simpa using this

theorem fallbackEntriesOf_sublist (path : List Seg) (hints : ConfigUiHints)
    (entries : List (String × JsonSchema)) :
    (fallbackEntriesOf (groupEntries path hints entries) entries).Sublist entries := by
  cases hh : (groupEntries path hints entries).head? with
  | none => simp [fallbackEntriesOf, hh]
  | some g =>
    simp only [fallbackEntriesOf, hh, Option.map_some, Option.getD_some]
    exact groupEntries_sublist _ _ _ g (List.mem_of_mem_head? hh)

/-! ## The rendered form tree

`Rendered` is the structural abstraction of the `lit` templates the
renderer emits: each constructor records the control kind, the data the
control displays, and the patch values its interactions would emit
(CSS, icons, and other purely presentational strings are not modelled). -/

structure FieldAssist where
  help : Option String
  docsUrl : Option String
  impacts : List ResolvedConfigImpact

structure RGroup (α : Type) where
  label : String
  advanced : Bool
  entries : List (String × α)

structure RItem (α : Type) where
  removeValue : JsValue
  child : α

structure RMapView (α : Type) where
  label : String
  assist : Option FieldAssist
  anySchema : Bool
  entries : List (String × α)

inductive Rendered where
  | errorField (label : String) (message : String)
  | segmented (label : Option String) (assist : Option FieldAssist) (path : List Seg)
      (options : List JsValue)
  | select (label : Option String) (assist : Option FieldAssist) (path : List Seg)
      (options : List JsValue) (value : JsValue)
  | toggle (label : String) (assist : Option FieldAssist) (path : List Seg) (checked : Bool)
  | textInput (label : Option String) (assist : Option FieldAssist) (path : List Seg)
      (inputType : String) (sensitive : Bool) (placeholder : String) (value : JsValue)
  | numberInput (label : Option String) (assist : Option FieldAssist) (path : List Seg)
      (value : JsValue)
  | objectView (label : String) (help : Option String) (wrapper : Option Bool)
      (fields : Sum (List (String × Rendered)) (List (RGroup Rendered)))
      (mapField : Option (RMapView Rendered))
  | arrayView (label : Option String) (assist : Option FieldAssist) (path : List Seg)
      (addValue : JsValue) (items : List (RItem Rendered))
  | rawTextarea (value : JsValue)

/-- `renderFieldAssist` (lines 225-306): `nothing` when there is no help
text, docs link, or impact. -/
def renderFieldAssist (path : List Seg) (hints : ConfigUiHints) (help : Option String)
    (rootValue : JsValue) : Option FieldAssist :=
  let hint := hintForPath path hints
  let docsUrl := toDocsUrl (hint.bind (·.docsPath))
  let impacts := resolveConfigImpacts path hints rootValue
  if !strTruthy help && docsUrl.isNone && impacts.length = 0 then none
  else some { help := help, docsUrl := docsUrl, impacts := impacts }

/-- `renderTextInput` (lines 532-608). -/
def renderTextInput (schema : JsonSchema) (value rootValue : JsValue) (path : List Seg)
    (hints : ConfigUiHints) (showLabel : Bool) (inputType : String) : Rendered :=
  let hint := hintForPath path hints
  let label := nodeLabel schema hint path
  let help := nodeHelp schema hint
  let assist := renderFieldAssist path hints help rootValue
  let isSensitive := (hint.bind (·.sensitive)).getD (isSensitivePath path)
  let placeholder :=
    (hint.bind (·.placeholder)).getD
      (if isSensitive then "••••"
       else if schema.default ≠ .undef then "Default: " ++ jsToString schema.default
       else "")
  .textInput (if showLabel then some label else none) assist path
    (if isSensitive then "password" else inputType) isSensitive placeholder
    (jsCoalesce value (.str ""))

/-- `renderNumberInput` (lines 610-660). -/
def renderNumberInput (schema : JsonSchema) (value rootValue : JsValue) (path : List Seg)
    (hints : ConfigUiHints) (showLabel : Bool) : Rendered :=
  let hint := hintForPath path hints
  let label := nodeLabel schema hint path
  let help := nodeHelp schema hint
  let assist := renderFieldAssist path hints help rootValue
  .numberInput (if showLabel then some label else none) assist path
    (jsCoalesce value (jsCoalesce schema.default (.str "")))

/-- `renderSelect` (lines 662-707). -/
def renderSelect (schema : JsonSchema) (value rootValue : JsValue) (path : List Seg)
    (hints : ConfigUiHints) (showLabel : Bool) (options : List JsValue) : Rendered :=
  let hint := hintForPath path hints
  let label := nodeLabel schema hint path
  let help := nodeHelp schema hint
  let assist := renderFieldAssist path hints help rootValue
  .select (if showLabel then some label else none) assist path options
    (jsCoalesce value schema.default)

theorem ne_nil_of_contains {α : Type _} [BEq α] {l : List α} {a : α}
    (h : l.contains a = true) : l ≠ [] := by
  intro he
  subst he
  simp at h

theorem ne_nil_of_dedup_ne {α : Type _} [DecidableEq α] {l : List α}
    (h : l.dedup ≠ []) : l ≠ [] := by
  intro he
  subst he
  simp at h

theorem ne_nil_of_map_ne {α β : Type _} {l : List α} {f : α → β}
    (h : l.map f ≠ []) : l ≠ [] := by
  intro he
  subst he
  simp at h

theorem ne_nil_of_filterMap_ne {α β : Type _} {l : List α} {f : α → Option β}
    (h : l.filterMap f ≠ []) : l ≠ [] := by
  intro he
  subst he
  simp at h

theorem ne_nil_of_filter_ne {α : Type _} {l : List α} {p : α → Bool}
    (h : l.filter p ≠ []) : l ≠ [] := by
  intro he
  subst he
  simp at h

/-- `Array.isArray(value) ? value : Array.isArray(schema.default) ?
schema.default : []`. -/
def arrayItemsOf (value defaultV : JsValue) : List JsValue :=
  match value with
  | .arr xs => xs
  | _ =>
    match defaultV with
    | .arr ds => ds
    | _ => []

mutual

/-- `renderNode` (`config-form.node.ts` lines 308-530): unsupported-path
check, `anyOf`/`oneOf` union handling, then the type dispatch
(`renderNodeTail`). -/
def renderNode (schema : JsonSchema) (value rootValue : JsValue) (path : List Seg)
    (hints : ConfigUiHints) (unsupported : List String) (showLabel : Bool) : Rendered :=
  let hint := hintForPath path hints
  let label := nodeLabel schema hint path
  let help := nodeHelp schema hint
  let key := pathKey path
  if unsupported.contains key then
    .errorField label "Unsupported schema node. Use Raw mode."
  else if schema.anyOf.isSome || schema.oneOf.isSome then
    let variants := variantsOf schema
    let nonNull := variants.filter fun v => !isNullVariant v
    match hNN : nonNull with
    | [v] =>
      have hv : v ∈ variantsOf schema := by
        have hmem : v ∈ nonNull := by
          rw [hNN]
          simp
        exact (List.mem_filter.mp hmem).1
      renderNode v value rootValue path hints unsupported showLabel
    | [] =>
      -- No non-null variant: every guard of the union block is vacuously
      -- false and control falls through to the type dispatch.
      renderNodeTail schema value rootValue path hints unsupported showLabel
    | v0 :: v1 :: vrest =>
      have hvar : variantsOf schema ≠ [] := by
        have hmem : v0 ∈ nonNull := by
          rw [hNN]
          simp
        exact List.ne_nil_of_mem (List.mem_filter.mp hmem).1
      let nn := v0 :: v1 :: vrest
      let literals := nn.map extractLiteral
      let allLiterals := literals.all (· ≠ JsValue.undef)
      if allLiterals ∧ 0 < literals.length ∧ literals.length ≤ 5 then
        .segmented (if showLabel then some label else none)
          (renderFieldAssist path hints help rootValue) path literals
      else if allLiterals ∧ 5 < literals.length then
        renderSelect schema (jsCoalesce value schema.default) rootValue path hints showLabel
          literals
      else
        let primitiveTypes :=
          (nn.filterMap fun v =>
            match schemaType v with
            | some t => if t = "" then none else some t
            | none => none).dedup
        let normalizedTypes :=
          (primitiveTypes.map fun v => if v = "integer" then "number" else v).dedup
        if normalizedTypes.all fun v => v = "string" || v = "number" || v = "boolean" then
          if normalizedTypes.contains "boolean" && decide (normalizedTypes.length = 1) then
            renderNode (stripUnionToBoolean schema) value rootValue path hints unsupported
              showLabel
          else if normalizedTypes.contains "string" || normalizedTypes.contains "number" then
            renderTextInput schema value rootValue path hints showLabel
              (if normalizedTypes.contains "number" && !normalizedTypes.contains "string" then
                "number"
              else "text")
          else renderNodeTail schema value rootValue path hints unsupported showLabel
        else renderNodeTail schema value rootValue path hints unsupported showLabel
  else renderNodeTail schema value rootValue path hints unsupported showLabel
termination_by (schemaSize schema, 5)
decreasing_by
  all_goals first
    | exact Prod.Lex.right _ (by omega)
    | exact Prod.Lex.left _ _ (schemaSize_lt_of_mem_variants (by assumption))
    | exact Prod.Lex.left _ _ (schemaSize_stripUnion_lt (by assumption))

/-- The part of `renderNode` after the union block: enum controls, then
the dispatch on the resolved type, ending in the `Unsupported type` error
field (lines 429-529). -/
def renderNodeTail (schema : JsonSchema) (value rootValue : JsValue) (path : List Seg)
    (hints : ConfigUiHints) (unsupported : List String) (showLabel : Bool) : Rendered :=
  let type := schemaType schema
  let hint := hintForPath path hints
  let label := nodeLabel schema hint path
  let help := nodeHelp schema hint
  if schema.enum.isSome then
    let options := schema.enum.getD []
    if options.length ≤ 5 then
      .segmented (if showLabel then some label else none)
        (renderFieldAssist path hints help rootValue) path options
    else
      renderSelect schema (jsCoalesce value schema.default) rootValue path hints showLabel
        options
  else if type = some "object" then
    renderObject schema value rootValue path hints unsupported
  else if type = some "array" then
    renderArray schema value rootValue path hints unsupported showLabel
  else if type = some "boolean" then
    let displayValue :=
      match value with
      | .bool b => b
      | _ =>
        match schema.default with
        | .bool b => b
        | _ => false
    .toggle label (renderFieldAssist path hints help rootValue) path displayValue
  else if type = some "number" ∨ type = some "integer" then
    renderNumberInput schema value rootValue path hints showLabel
  else if type = some "string" then
    renderTextInput schema value rootValue path hints showLabel "text"
  else
    .errorField label ("Unsupported type: " ++ type.getD "undefined" ++ ". Use Raw mode.")
termination_by (schemaSize schema, 4)
decreasing_by
  · exact Prod.Lex.right _ (by omega)
  · exact Prod.Lex.right _ (by omega)

/-- `renderObject` (lines 803-912): sort the properties by hint order,
group them, and wrap nested objects in a collapsible section. -/
def renderObject (schema : JsonSchema) (value rootValue : JsValue) (path : List Seg)
    (hints : ConfigUiHints) (unsupported : List String) : Rendered :=
  let hint := hintForPath path hints
  let label := nodeLabel schema hint path
  let help := nodeHelp schema hint
  let fallback := jsCoalesce value schema.default
  let obj : List (String × JsValue) :=
    match fallback with
    | .obj fs => fs
    | _ => []
  let props := schema.properties.getD []
  let sorted := props.mergeSort (sortLE path hints)
  let reserved := props.map (·.1)
  let fields := renderObjectFields sorted obj rootValue path hints unsupported
  let mapField :=
    match hAP : schema.additionalProperties with
    | some (.inr ap) => some (renderMapField ap obj rootValue path hints unsupported reserved)
    | _ => none
  if path.length = 1 then .objectView label help none fields mapField
  else
    .objectView label help
      (some (decide (path.length ≤ 2) && !decide ((hint.bind (·.advanced)) = some true)))
      fields mapField
termination_by (schemaSize schema, 3)
decreasing_by
  · -- renderObject → renderObjectFields (sorted entries)
    have hperm : List.Perm ((schema.properties.getD []).mergeSort (sortLE path hints))
        (schema.properties.getD []) := List.mergeSort_perm _ _
    have hsum : entriesSize ((schema.properties.getD []).mergeSort (sortLE path hints)) =
        entriesSize (schema.properties.getD []) := by
      rw [entriesSize_eq_sum, entriesSize_eq_sum]
      exact (hperm.map fun e => schemaSize e.2).sum_eq
    have hlt := entriesSize_properties_lt schema
    rcases Nat.lt_or_ge
        (entriesSize ((schema.properties.getD []).mergeSort (sortLE path hints)) + 1)
        (schemaSize schema) with h | h
    · exact Prod.Lex.left _ _ h
    · have heq : entriesSize ((schema.properties.getD []).mergeSort (sortLE path hints)) + 1 =
          schemaSize schema := by omega
      rw [heq]
      exact Prod.Lex.right _ (by omega)
  · -- renderObject → renderMapField
    have hlt := schemaSize_lt_of_ap hAP
    rcases Nat.lt_or_ge (schemaSize ap + 1) (schemaSize schema) with h | h
    · exact Prod.Lex.left _ _ h
    · have heq : schemaSize ap + 1 = schemaSize schema := by omega
      rw [heq]
      exact Prod.Lex.right _ (by omega)

/-- `renderObjectFields` (lines 711-801): group the (already sorted)
entries, render flat when only an unlabelled non-advanced "General" group
exists, grouped otherwise. -/
def renderObjectFields (entries : List (String × JsonSchema)) (obj : List (String × JsValue))
    (rootValue : JsValue) (path : List Seg) (hints : ConfigUiHints)
    (unsupported : List String) :
    Sum (List (String × Rendered)) (List (RGroup Rendered)) :=
  let groups := groupEntries path hints entries
  if !useGroupedPresentation groups then
    let fb := fallbackEntriesOf groups entries
    .inl (fb.attach.map fun ⟨e, he⟩ =>
      (e.1,
        renderNode e.2 (objGet obj e.1) rootValue (path ++ [Seg.s e.1]) hints unsupported true))
  else
    .inr (groups.attach.map fun ⟨g, hg⟩ =>
      { label := g.label, advanced := g.advanced
        entries := g.entries.attach.map fun ⟨e, he⟩ =>
          (e.1,
            renderNode e.2 (objGet obj e.1) rootValue (path ++ [Seg.s e.1]) hints unsupported
              true) })
termination_by (entriesSize entries + 1, 0)
decreasing_by
  · -- flat fields
    obtain ⟨k, v⟩ := e
    have hmem : (k, v) ∈ entries :=
      (fallbackEntriesOf_sublist path hints entries).subset he
    exact Prod.Lex.left _ _ (Nat.lt_succ_of_le (entriesSize_mem hmem))
  · -- grouped fields
    obtain ⟨k, v⟩ := e
    have hmem : (k, v) ∈ entries :=
      (groupEntries_sublist path hints entries g hg).subset he
    exact Prod.Lex.left _ _ (Nat.lt_succ_of_le (entriesSize_mem hmem))

/-- `renderMapField` (lines 1017-1163), restricted to the structural
content: the filtered custom entries, each rendered with the
`additionalProperties` schema (or as a raw JSON textarea when that schema
is the "any" schema). -/
def renderMapField (schema : JsonSchema) (value : List (String × JsValue))
    (rootValue : JsValue) (path : List Seg) (hints : ConfigUiHints)
    (unsupported : List String) (reservedKeys : List String) : RMapView Rendered :=
  let hint := hintForPath path hints
  let label := (hint.bind (·.label)).getD "Custom entries"
  let help := hint.bind (·.help)
  let assist := renderFieldAssist path hints help rootValue
  let anySchema := isAnySchema schema
  let entries := value.filter fun e => !reservedKeys.contains e.1
  { label := label, assist := assist, anySchema := anySchema
    entries := entries.map fun e =>
      (e.1,
        if anySchema then Rendered.rawTextarea e.2
        else renderNode schema e.2 rootValue (path ++ [Seg.s e.1]) hints unsupported false) }
termination_by (schemaSize schema + 1, 0)
decreasing_by
  exact Prod.Lex.left _ _ (Nat.lt_succ_self _)

/-- `renderArray` (lines 914-1015): error field without an items schema;
otherwise the add control (append the item default) and per-item remove
controls (splice the index out). -/
def renderArray (schema : JsonSchema) (value rootValue : JsValue) (path : List Seg)
    (hints : ConfigUiHints) (unsupported : List String) (showLabel : Bool) : Rendered :=
  let itemsOpt := itemsSchemaOf schema
  match hIt : itemsOpt with
  | none =>
    let hint := hintForPath path hints
    let label := nodeLabel schema hint path
    Rendered.errorField label "Unsupported array schema. Use Raw mode."
  | some itemsSchema =>
    let hint := hintForPath path hints
    let label := nodeLabel schema hint path
    let help := nodeHelp schema hint
    let assist := renderFieldAssist path hints help rootValue
    let arr := arrayItemsOf value schema.default
    Rendered.arrayView (if showLabel then some label else none) assist path
      (.arr (arr ++ [defaultValue (some itemsSchema)]))
      (arr.mapIdx fun idx item =>
        { removeValue := .arr (arr.eraseIdx idx)
          child :=
            renderNode itemsSchema item rootValue (path ++ [Seg.n idx]) hints unsupported
              false })
termination_by (schemaSize schema, 3)
decreasing_by
  exact Prod.Lex.left _ _ (schemaSize_lt_of_itemsSchemaOf hIt)

end

/-! ## Extractors over the rendered tree -/

/-- The collapsible wrapper of a rendered object: `some none` for a flat
(top-level) object, `some (some open)` for a collapsible section with its
open-by-default flag, `none` for non-object renderings. -/
def Rendered.objectWrapper : Rendered → Option (Option Bool)
  | .objectView _ _ w _ _ => some w
  | _ => none

/-- The property-key lists of a rendered object's field sections: one list
for the flat presentation, one per group for the grouped presentation. -/
def renderedGroupKeyLists : Rendered → List (List String)
  | .objectView _ _ _ (Sum.inl flat) _ => [flat.map (·.1)]
  | .objectView _ _ _ (Sum.inr gs) _ => gs.map fun g => g.entries.map (·.1)
  | _ => []

/-- **C8** (confirmed).  A top-level object (path length 1) renders its
fields directly with no collapsible wrapper; a nested object (path length
at least 2) is wrapped in a collapsible section whose open-by-default flag
is true exactly when the path length is at most 2 and the node's hint does
not mark it advanced. -/
theorem renderObject_collapsible (schema : JsonSchema) (value rootValue : JsValue)
    (path : List Seg) (hints : ConfigUiHints) (unsupported : List String) :
    (path.length = 1 →
      (renderObject schema value rootValue path hints unsupported).objectWrapper =
        some none) ∧
    (2 ≤ path.length →
      (renderObject schema value rootValue path hints unsupported).objectWrapper =
        some (some (decide (path.length ≤ 2) &&
          !decide (((hintForPath path hints).bind (·.advanced)) = some true)))) := by
  constructor
  · intro h1
    simp only [renderObject, h1, if_pos rfl]
    split
    · simp [Rendered.objectWrapper]
    · simp_all
  · intro h2
    have hne : ¬path.length = 1 := by omega
    simp only [renderObject, hne, if_false]
    split <;> simp [Rendered.objectWrapper]

/-- Witness for C8: a nested two-segment path is wrapped and open by
default; a top-level path is flat. -/
theorem renderObject_collapsible_witness :
    (renderObject (JsonSchema.mk .absent none none none none none none .undef .undef
          none none none none)
        .undef .undef [Seg.s "a"] [] []).objectWrapper = some none ∧
      (renderObject (JsonSchema.mk .absent none none none none none none .undef .undef
            none none none none)
          .undef .undef [Seg.s "a", Seg.s "b"] [] []).objectWrapper =
        some (some (decide (([Seg.s "a", Seg.s "b"] : List Seg).length ≤ 2) &&
          !decide (((hintForPath [Seg.s "a", Seg.s "b"] []).bind (·.advanced)) = some true))) :=
  ⟨(renderObject_collapsible _ .undef .undef [Seg.s "a"] [] []).1 rfl,
    (renderObject_collapsible _ .undef .undef [Seg.s "a", Seg.s "b"] [] []).2 (by decide)⟩

set_option maxRecDepth 8192

/-- **C3** (confirmed).  Every path listed in the unsupported set renders
the "Unsupported schema node" error field regardless of its schema; and a
node outside the supported subset — no `anyOf`/`oneOf`, no `enum`, and a
resolved type that is none of object/array/boolean/number/integer/string —
falls through to the "Unsupported type" error field rather than an
editable control. -/
theorem renderNode_unsupported_error (schema : JsonSchema) (value rootValue : JsValue)
    (path : List Seg) (hints : ConfigUiHints) (unsupported : List String)
    (showLabel : Bool) :
    (unsupported.contains (pathKey path) = true →
      renderNode schema value rootValue path hints unsupported showLabel =
        .errorField (nodeLabel schema (hintForPath path hints) path)
          "Unsupported schema node. Use Raw mode.") ∧
    (unsupported.contains (pathKey path) = false →
      schema.anyOf = none → schema.oneOf = none → schema.enum = none →
      schemaType schema ∉
        [some "object", some "array", some "boolean", some "number", some "integer",
          some "string"] →
      renderNode schema value rootValue path hints unsupported showLabel =
        .errorField (nodeLabel schema (hintForPath path hints) path)
          ("Unsupported type: " ++ (schemaType schema).getD "undefined" ++
            ". Use Raw mode.")) := by
  constructor
  · intro h
    rw [renderNode.eq_def]
    simp only [List.elem_eq_mem, decide_eq_true_eq] at h
    simp [h]
  · intro hkey hAnyOf hOneOf hEnum hType
    have h1 : schemaType schema ≠ some "object" := fun he => hType (by simp [he])
    have h2 : schemaType schema ≠ some "array" := fun he => hType (by simp [he])
    have h3 : schemaType schema ≠ some "boolean" := fun he => hType (by simp [he])
    have h4 : schemaType schema ≠ some "number" := fun he => hType (by simp [he])
    have h5 : schemaType schema ≠ some "integer" := fun he => hType (by simp [he])
    have h6 : schemaType schema ≠ some "string" := fun he => hType (by simp [he])
    rw [renderNode.eq_def]
    simp only [hkey, hAnyOf, hOneOf, Bool.false_eq_true, if_false, Option.isSome_none,
      Bool.or_self]
    rw [renderNodeTail.eq_def]
    simp only [hEnum, Option.isSome_none, Bool.false_eq_true, if_false, h1, h2, h3, h4, h5,
      h6]
    simp [h4, h5]

/-- Witness for C3: a path in the unsupported set renders the error field
even for an empty "any" schema, and a bare `{"type": "function"}` schema
falls through to the "Unsupported type" error field. -/
theorem renderNode_unsupported_error_witness :
    (["a"] : List String).contains (pathKey [Seg.s "a"]) = true ∧
      renderNode (JsonSchema.mk .absent none none none none none none .undef .undef
            none none none none)
          .undef .undef [Seg.s "a"] [] ["a"] true =
        .errorField
          (nodeLabel (JsonSchema.mk .absent none none none none none none .undef .undef
              none none none none)
            (hintForPath [Seg.s "a"] []) [Seg.s "a"])
          "Unsupported schema node. Use Raw mode." ∧
      renderNode (JsonSchema.mk (.single "function") none none none none none none .undef
            .undef none none none none)
          .undef .undef [Seg.s "a"] [] [] true =
        .errorField
          (nodeLabel (JsonSchema.mk (.single "function") none none none none none none
              .undef .undef none none none none)
            (hintForPath [Seg.s "a"] []) [Seg.s "a"])
          ("Unsupported type: " ++
            (schemaType (JsonSchema.mk (.single "function") none none none none none none
                .undef .undef none none none none)).getD "undefined" ++
            ". Use Raw mode.") :=
  ⟨by decide,
    (renderNode_unsupported_error _ .undef .undef [Seg.s "a"] [] ["a"] true).1 (by decide),
    (renderNode_unsupported_error _ .undef .undef [Seg.s "a"] [] [] true).2 (by decide) rfl
      rfl rfl (by decide)⟩

/-- The path an array control patches. -/
def Rendered.arrayPath : Rendered → Option (List Seg)
  | .arrayView _ _ p _ _ => some p
  | _ => none

/-- The value the add control patches in. -/
def Rendered.arrayAddValue : Rendered → Option JsValue
  | .arrayView _ _ _ add _ => some add
  | _ => none

/-- The values the per-item remove controls patch in. -/
def Rendered.arrayRemoveValues : Rendered → Option (List JsValue)
  | .arrayView _ _ _ _ items => some (items.map (·.removeValue))
  | _ => none

/-- C6, claim-side: the appended item default — the schema's own default
if present, otherwise the type-determined zero value ({} for object, []
for array, false for boolean, 0 for number/integer, "" for string and
unknown). -/
def claimItemDefault (s : JsonSchema) : JsValue :=
  if s.default ≠ .undef then s.default
  else
    match schemaType s with
    | some "object" => .obj []
    | some "array" => .arr []
    | some "boolean" => .bool false
    | some "number" => .num 0
    | some "integer" => .num 0
    | some "string" => .str ""
    | _ => .str ""

/-- **C6** (confirmed).  For an array field with an items schema and
current item list `xs`, the add control patches the array's own path with
`xs` plus the items schema's default appended at the end; the remove
control of the item at index `i` patches the array's path with `xs` with
exactly the element at index `i` removed, all other elements unchanged
and in their original order. -/
theorem renderArray_patches (schema : JsonSchema) (value rootValue : JsValue)
    (path : List Seg) (hints : ConfigUiHints) (unsupported : List String)
    (showLabel : Bool) (isch : JsonSchema) (hIt : itemsSchemaOf schema = some isch)
    (xs : List JsValue) (hxs : value = .arr xs) :
    (renderArray schema value rootValue path hints unsupported showLabel).arrayPath =
        some path ∧
      (renderArray schema value rootValue path hints unsupported showLabel).arrayAddValue =
        some (.arr (xs ++ [defaultValue (some isch)])) ∧
      (renderArray schema value rootValue path hints unsupported
            showLabel).arrayRemoveValues =
        some (xs.mapIdx fun i _ => .arr (xs.eraseIdx i)) ∧
      defaultValue (some isch) = claimItemDefault isch := by
  subst hxs
  rw [renderArray.eq_def]
  rw [show itemsSchemaOf schema = some isch from hIt]
  have harr : arrayItemsOf (.arr xs) schema.default = xs := rfl
  refine ⟨by simp [Rendered.arrayPath], by simp [Rendered.arrayAddValue, harr], ?_, rfl⟩
  simp only [harr, Rendered.arrayRemoveValues, Option.some_inj]
  apply List.ext_getElem?
  intro i
  simp only [List.getElem?_map, List.getElem?_mapIdx, Option.map_map]
  cases xs[i]? <;> rfl

/-- Witness for C6: a string-array field with one item. -/
theorem renderArray_patches_witness :
    (renderArray
          (JsonSchema.mk (.single "array") none none none
            (some (.inl (JsonSchema.mk (.single "string") none none none none none none
              .undef .undef none none none none)))
            none none .undef .undef none none none none)
          (.arr [.str "x"]) .undef [Seg.s "items"] [] [] true).arrayPath =
        some [Seg.s "items"] ∧
      (renderArray
            (JsonSchema.mk (.single "array") none none none
              (some (.inl (JsonSchema.mk (.single "string") none none none none none none
                .undef .undef none none none none)))
              none none .undef .undef none none none none)
            (.arr [.str "x"]) .undef [Seg.s "items"] [] [] true).arrayAddValue =
        some (.arr ([JsValue.str "x"] ++
          [defaultValue (some (JsonSchema.mk (.single "string") none none none none none
            none .undef .undef none none none none))])) ∧
      (renderArray
            (JsonSchema.mk (.single "array") none none none
              (some (.inl (JsonSchema.mk (.single "string") none none none none none none
                .undef .undef none none none none)))
              none none .undef .undef none none none none)
            (.arr [.str "x"]) .undef [Seg.s "items"] [] [] true).arrayRemoveValues =
        some ([JsValue.str "x"].mapIdx fun i _ => .arr ([JsValue.str "x"].eraseIdx i)) ∧
      defaultValue (some (JsonSchema.mk (.single "string") none none none none none none
          .undef .undef none none none none)) =
        claimItemDefault (JsonSchema.mk (.single "string") none none none none none none
          .undef .undef none none none none) :=
  renderArray_patches
    (JsonSchema.mk (.single "array") none none none
      (some (.inl (JsonSchema.mk (.single "string") none none none none none none
        .undef .undef none none none none)))
      none none .undef .undef none none none none)
    (.arr [.str "x"]) .undef [Seg.s "items"] [] [] true
    (JsonSchema.mk (.single "string") none none none none none none .undef .undef none
      none none none)
    rfl [JsValue.str "x"] rfl

theorem sortLE_iff (path : List Seg) (hints : ConfigUiHints) (a b : String × JsonSchema) :
    sortLE path hints a b = true ↔
      (hintOrderOf path hints a.1 < hintOrderOf path hints b.1 ∨
        (hintOrderOf path hints a.1 = hintOrderOf path hints b.1 ∧ jsStrLe a.1 b.1 = true)) := by
  simp [sortLE]

theorem attach_map_fst {α β γ : Type _} (l : List (α × β))
    (F : {x : α × β // x ∈ l} → γ) :
    ((l.attach.map fun x => (x.1.1, F x)).map fun p => p.1) = l.map fun p => p.1 := by
  rw [List.map_map]
  exact List.attach_map_val l fun e => e.1

/-- **C7** (confirmed, with `localeCompare` modelled as code-point
lexicographic comparison).  `renderObject` renders the properties sorted
by ascending hint order (no order hint counts as 0), ties broken by name
comparison; the ordering is applied before grouping, so every rendered
field section lists its keys as a sublist of (in the same relative order
as) the sorted key list. -/
theorem renderObject_sorts_properties (schema : JsonSchema) (value rootValue : JsValue)
    (path : List Seg) (hints : ConfigUiHints) (unsupported : List String) :
    List.Perm ((schema.properties.getD []).mergeSort (sortLE path hints))
        (schema.properties.getD []) ∧
      ((schema.properties.getD []).mergeSort (sortLE path hints)).Pairwise
        (fun a b =>
          hintOrderOf path hints a.1 < hintOrderOf path hints b.1 ∨
            (hintOrderOf path hints a.1 = hintOrderOf path hints b.1 ∧
              jsStrLe a.1 b.1 = true)) ∧
      (renderedGroupKeyLists
          (renderObject schema value rootValue path hints unsupported)).Forall
        fun ks =>
          ks.Sublist (((schema.properties.getD []).mergeSort (sortLE path hints)).map (·.1)) := by
  refine ⟨List.mergeSort_perm _ _, ?_, ?_⟩
  · have hp := @List.sorted_mergeSort _ (sortLE path hints)
      (fun a b c hab hbc => sortLE_trans path hints a b c hab hbc)
      (fun a b => sortLE_total path hints a b) (schema.properties.getD [])
    exact hp.imp fun hab => (sortLE_iff path hints _ _).mp hab
  · simp only [renderObject.eq_def, renderObjectFields.eq_def]
    split
    · split
      · simp only [renderedGroupKeyLists, List.Forall]
        rw [attach_map_fst]
        exact (fallbackEntriesOf_sublist path hints _).map _
      · simp only [renderedGroupKeyLists]
        rw [List.forall_iff_forall_mem]
        intro ks hks
        simp only [List.map_map, List.mem_map, List.mem_attach, true_and,
          Function.comp_apply] at hks
        obtain ⟨⟨g, hg⟩, rfl⟩ := hks
        rw [← List.map_map, attach_map_fst]
        exact (groupEntries_sublist path hints _ g hg).map _
    · split
      · simp only [renderedGroupKeyLists, List.Forall]
        rw [attach_map_fst]
        exact (fallbackEntriesOf_sublist path hints _).map _
      · simp only [renderedGroupKeyLists]
        rw [List.forall_iff_forall_mem]
        intro ks hks
        simp only [List.map_map, List.mem_map, List.mem_attach, true_and,
          Function.comp_apply] at hks
        obtain ⟨⟨g, hg⟩, rfl⟩ := hks
        rw [← List.map_map, attach_map_fst]
        exact (groupEntries_sublist path hints _ g hg).map _

/-- **C4**, amended.  With the path not in the unsupported set: a union
with exactly one non-null variant delegates to that variant's editor
unchanged; a union with at least two non-null variants, all of them
literals, renders a segmented control whose options are exactly the
extracted literals when there are at most 5 of them and a select over
them when there are more than 5; and a plain enum schema (no
`anyOf`/`oneOf`) renders a segmented control over exactly the enum
options when there are at most 5 and a select over them otherwise. -/
theorem renderNode_enum_union_rendering (schema : JsonSchema) (value rootValue : JsValue)
    (path : List Seg) (hints : ConfigUiHints) (unsupported : List String) (showLabel : Bool)
    (hK : unsupported.contains (pathKey path) = false) :
    (∀ v, (schema.anyOf.isSome || schema.oneOf.isSome) = true →
        ((variantsOf schema).filter fun x => !isNullVariant x) = [v] →
        renderNode schema value rootValue path hints unsupported showLabel =
          renderNode v value rootValue path hints unsupported showLabel) ∧
    (∀ v0 v1 vrest, (schema.anyOf.isSome || schema.oneOf.isSome) = true →
        ((variantsOf schema).filter fun x => !isNullVariant x) = v0 :: v1 :: vrest →
        ((v0 :: v1 :: vrest).map extractLiteral).all (fun l => l ≠ JsValue.undef) = true →
        (((v0 :: v1 :: vrest).map extractLiteral).length ≤ 5 →
          renderNode schema value rootValue path hints unsupported showLabel =
            .segmented
              (if showLabel then some (nodeLabel schema (hintForPath path hints) path)
               else none)
              (renderFieldAssist path hints (nodeHelp schema (hintForPath path hints))
                rootValue)
              path ((v0 :: v1 :: vrest).map extractLiteral)) ∧
        (5 < ((v0 :: v1 :: vrest).map extractLiteral).length →
          renderNode schema value rootValue path hints unsupported showLabel =
            renderSelect schema (jsCoalesce value schema.default) rootValue path hints
              showLabel ((v0 :: v1 :: vrest).map extractLiteral))) ∧
    (schema.anyOf = none → schema.oneOf = none →
        ∀ options, schema.enum = some options →
        (options.length ≤ 5 →
          renderNode schema value rootValue path hints unsupported showLabel =
            .segmented
              (if showLabel then some (nodeLabel schema (hintForPath path hints) path)
               else none)
              (renderFieldAssist path hints (nodeHelp schema (hintForPath path hints))
                rootValue)
              path options) ∧
        (5 < options.length →
          renderNode schema value rootValue path hints unsupported showLabel =
            renderSelect schema (jsCoalesce value schema.default) rootValue path hints
              showLabel options)) := by
  refine ⟨?_, ?_, ?_⟩
  · intro v hU hF
    rw [renderNode.eq_def]
    simp only [hK, Bool.false_eq_true, if_false, hU, if_true]
    split
    · rename_i heq
      rw [hF] at heq
      simp only [List.cons.injEq] at heq
      rw [heq.1]
    · rename_i heq
      rw [hF] at heq
      simp at heq
    · rename_i heq
      rw [hF] at heq
      simp at heq
  · intro v0 v1 vrest hU hF hAll
    constructor
    · intro hLen
      rw [renderNode.eq_def]
      simp only [hK, Bool.false_eq_true, if_false, hU, if_true]
      split
      · rename_i heq
        rw [hF] at heq
        simp at heq
      · rename_i heq
        rw [hF] at heq
        simp at heq
      · rename_i w0 w1 wrest heq
        rw [hF] at heq
        obtain ⟨rfl, rfl, rfl⟩ := by simpa using heq
        rw [if_pos ⟨hAll, by simp, hLen⟩]
    · intro hLen
      rw [renderNode.eq_def]
      simp only [hK, Bool.false_eq_true, if_false, hU, if_true]
      split
      · rename_i heq
        rw [hF] at heq
        simp at heq
      · rename_i heq
        rw [hF] at heq
        simp at heq
      · rename_i w0 w1 wrest heq
        rw [hF] at heq
        obtain ⟨rfl, rfl, rfl⟩ := by simpa using heq
        rw [if_neg (by omega), if_pos ⟨hAll, hLen⟩]
  · intro hA hO options hE
    have hTail : renderNode schema value rootValue path hints unsupported showLabel =
        renderNodeTail schema value rootValue path hints unsupported showLabel := by
      rw [renderNode.eq_def]
      simp only [hK, Bool.false_eq_true, if_false, hA, hO, Option.isSome_none,
        Bool.or_self, if_false]
    constructor
    · intro hLen
      rw [hTail, renderNodeTail.eq_def]
      simp only [hE, Option.isSome_some, if_true, Option.getD_some]
      rw [if_pos hLen]
    · intro hLen
      rw [hTail, renderNodeTail.eq_def]
      simp only [hE, Option.isSome_some, if_true, Option.getD_some]
      rw [if_neg (by omega)]

/-- **C4** counterexample.  The schema `{anyOf: [{const: "a"}]}` is a
union whose (single) non-null variant is a literal, with one option —
at most 5 — yet `renderNode` does not produce a segmented control with
one button per option: the single-non-null-variant delegation runs
first, and the bare `const` variant (no `enum`, no `type`) falls through
to the "Unsupported type" error field. -/
theorem renderNode_literal_union_counterexample :
    ((JsonSchema.mk .absent none none none none none none .undef .undef
          (some [JsonSchema.mk .absent none none none none none none (.str "a") .undef
            none none none none])
          none none none).anyOf.isSome ||
        (JsonSchema.mk .absent none none none none none none .undef .undef
          (some [JsonSchema.mk .absent none none none none none none (.str "a") .undef
            none none none none])
          none none none).oneOf.isSome) = true ∧
      ((variantsOf (JsonSchema.mk .absent none none none none none none .undef .undef
            (some [JsonSchema.mk .absent none none none none none none (.str "a") .undef
              none none none none])
            none none none)).filter fun x => !isNullVariant x).map extractLiteral =
        [JsValue.str "a"] ∧
      renderNode
          (JsonSchema.mk .absent none none none none none none .undef .undef
            (some [JsonSchema.mk .absent none none none none none none (.str "a") .undef
              none none none none])
            none none none)
          .undef .undef [Seg.s "k"] [] [] true =
        .errorField
          (nodeLabel
            (JsonSchema.mk .absent none none none none none none (.str "a") .undef
              none none none none)
            (hintForPath [Seg.s "k"] []) [Seg.s "k"])
          ("Unsupported type: undefined. Use Raw mode.") ∧
      ∀ lbl assist opts,
        renderNode
            (JsonSchema.mk .absent none none none none none none .undef .undef
              (some [JsonSchema.mk .absent none none none none none none (.str "a") .undef
                none none none none])
              none none none)
            .undef .undef [Seg.s "k"] [] [] true ≠
          Rendered.segmented lbl assist [Seg.s "k"] opts := by
  have hTail :
      renderNodeTail
          (JsonSchema.mk .absent none none none none none none (.str "a") .undef
            none none none none)
          .undef .undef [Seg.s "k"] [] [] true =
        .errorField
          (nodeLabel
            (JsonSchema.mk .absent none none none none none none (.str "a") .undef
              none none none none)
            (hintForPath [Seg.s "k"] []) [Seg.s "k"])
          ("Unsupported type: undefined. Use Raw mode.") := by
    rw [renderNodeTail.eq_def]
    rfl
  have hL :
      renderNode
          (JsonSchema.mk .absent none none none none none none (.str "a") .undef
            none none none none)
          .undef .undef [Seg.s "k"] [] [] true =
        renderNodeTail
          (JsonSchema.mk .absent none none none none none none (.str "a") .undef
            none none none none)
          .undef .undef [Seg.s "k"] [] [] true := by
    rw [renderNode.eq_def]
    rfl
  have hU :
      renderNode
          (JsonSchema.mk .absent none none none none none none .undef .undef
            (some [JsonSchema.mk .absent none none none none none none (.str "a") .undef
              none none none none])
            none none none)
          .undef .undef [Seg.s "k"] [] [] true =
        renderNode
          (JsonSchema.mk .absent none none none none none none (.str "a") .undef
            none none none none)
          .undef .undef [Seg.s "k"] [] [] true := by
    rw [renderNode.eq_def]
    rfl
  have heq := hU.trans (hL.trans hTail)
  refine ⟨rfl, rfl, heq, ?_⟩
  intro lbl assist opts h
  rw [heq] at h
  exact Rendered.noConfusion h

/-- Witness for the amended C4: a two-literal union renders the
segmented control over its two extracted literals. -/
theorem renderNode_enum_union_rendering_witness :
    (([] : List String).contains
        (pathKey [Seg.s "k"]) = false) ∧
      renderNode
          (JsonSchema.mk .absent none none none none none none .undef .undef
            (some [JsonSchema.mk .absent none none none none none none (.str "b") .undef
                none none none none,
              JsonSchema.mk .absent none none none none none none (.str "c") .undef
                none none none none])
            none none none)
          .undef .undef [Seg.s "k"] [] [] true =
        .segmented
          (some (nodeLabel
            (JsonSchema.mk .absent none none none none none none .undef .undef
              (some [JsonSchema.mk .absent none none none none none none (.str "b") .undef
                  none none none none,
                JsonSchema.mk .absent none none none none none none (.str "c") .undef
                  none none none none])
              none none none)
            (hintForPath [Seg.s "k"] []) [Seg.s "k"]))
          (renderFieldAssist [Seg.s "k"] []
            (nodeHelp
              (JsonSchema.mk .absent none none none none none none .undef .undef
                (some [JsonSchema.mk .absent none none none none none none (.str "b")
                    .undef none none none none,
                  JsonSchema.mk .absent none none none none none none (.str "c") .undef
                    none none none none])
                none none none)
              (hintForPath [Seg.s "k"] []))
            .undef)
          [Seg.s "k"] [JsValue.str "b", JsValue.str "c"] :=
  ⟨rfl,
    ((renderNode_enum_union_rendering
        (JsonSchema.mk .absent none none none none none none .undef .undef
          (some [JsonSchema.mk .absent none none none none none none (.str "b") .undef
              none none none none,
            JsonSchema.mk .absent none none none none none none (.str "c") .undef
              none none none none])
          none none none)
        .undef .undef [Seg.s "k"] [] [] true rfl).2.1
      (JsonSchema.mk .absent none none none none none none (.str "b") .undef
        none none none none)
      (JsonSchema.mk .absent none none none none none none (.str "c") .undef
        none none none none)
      [] rfl rfl (by decide)).1 (by decide)⟩

end ConfigForm
